import Mathlib

/-!
# Verification of the watsdis virtual file system and window/instance manager

This development gives a shallow embedding of the core state-management layer
of the repository: the metadata (files) store (`useFilesStore`), the
per-instance window manager (`useAppStore`), and the file-system facade
(`useFileSystem`), and proves/refutes the specified properties about them.

JavaScript objects used as string-keyed maps are modelled as association
lists (`List (κ × α)`) where the list order is the object's key-enumeration
order; `objSet` mirrors JS property assignment (an existing key keeps its
position, a new key is appended), `objDel` mirrors `delete`, and
`objMapVals` mirrors the `Object.keys(o).forEach(k => o[k] = f(k, o[k]))`
pattern.  JS strings are modelled by Lean `String` with `jsStartsWith`,
`jsSubstringFrom` and `strLen` providing `startsWith`, `substring(n)` and
`.length` over the character list (paths in this repository are ASCII, so
code-unit indexing and character indexing agree).  JS truthiness of optional
strings/numbers is modelled by `strOr`, `natOr`, `truthyStr`, `truthyNat`
(`""` and `0` are falsy), and `??` by `nullishOr`.
-/

namespace Desktop

/-! ## JS object (string-keyed record) model -/

variable {κ : Type} {α : Type}

/-- Lookup `o[k]` in a JS object modelled as an association list. -/
def objGet [BEq κ] (m : List (κ × α)) (k : κ) : Option α :=
  match m with
  | [] => none
  | kv :: rest => if kv.1 == k then some kv.2 else objGet rest k

/-- JS property assignment `o[k] = v`: replace in place if the key exists,
otherwise append the new key at the end of the enumeration order. -/
def objSet [BEq κ] (m : List (κ × α)) (k : κ) (v : α) : List (κ × α) :=
  match m with
  | [] => [(k, v)]
  | kv :: rest => if kv.1 == k then (k, v) :: rest else kv :: objSet rest k v

/-- JS `delete o[k]`: removes the entry with the given key (keys are unique
in a JS object, recursing over the tail keeps the definition total). -/
def objDel [BEq κ] (m : List (κ × α)) (k : κ) : List (κ × α) :=
  match m with
  | [] => []
  | kv :: rest => if kv.1 == k then objDel rest k else kv :: objDel rest k

/-- The `Object.keys(o).forEach(k => o[k] = f(k, o[k]))` mutation pattern. -/
def objMapVals (f : κ → α → α) (m : List (κ × α)) : List (κ × α) :=
  m.map (fun kv => (kv.1, f kv.1 kv.2))

/-- `Object.keys(o)` in enumeration order. -/
def keysOf (m : List (κ × α)) : List κ :=
  m.map (·.1)

theorem objGet_objSet_self [BEq κ] [LawfulBEq κ] (m : List (κ × α)) (k : κ) (v : α) :
    objGet (objSet m k v) k = some v := by
  induction m with
  | nil => simp [objGet, objSet]
  | cons kv rest ih =>
    by_cases h : kv.1 = k
    · simp [objGet, objSet, h]
    · simp only [objSet, objGet, beq_iff_eq, h, if_false]
      exact ih

theorem objGet_objSet_ne [BEq κ] [LawfulBEq κ] (m : List (κ × α)) (k k' : κ) (v : α)
    (hne : k' ≠ k) : objGet (objSet m k v) k' = objGet m k' := by
  have hkk : k ≠ k' := Ne.symm hne
  induction m with
  | nil => simp [objGet, objSet, hkk]
  | cons kv rest ih =>
    by_cases h : kv.1 = k
    · simp [objGet, objSet, h, hkk]
    · simp only [objSet, beq_iff_eq, h, if_false, objGet]
      by_cases h' : kv.1 = k'
      · simp [h']
      · simp only [beq_iff_eq, h', if_false]
        exact ih

theorem objGet_objDel_self [BEq κ] [LawfulBEq κ] (m : List (κ × α)) (k : κ) :
    objGet (objDel m k) k = none := by
  induction m with
  | nil => simp [objGet, objDel]
  | cons kv rest ih =>
    by_cases h : kv.1 = k
    · simp only [objDel, beq_iff_eq, h, if_true]
      exact ih
    · simp only [objDel, beq_iff_eq, h, if_false, objGet]
      exact ih

theorem objGet_objDel_ne [BEq κ] [LawfulBEq κ] (m : List (κ × α)) (k k' : κ)
    (hne : k' ≠ k) : objGet (objDel m k) k' = objGet m k' := by
  induction m with
  | nil => simp [objGet, objDel]
  | cons kv rest ih =>
    by_cases h : kv.1 = k
    · have h' : kv.1 ≠ k' := by rw [h]; exact Ne.symm hne
      simp only [objDel, beq_iff_eq, h, if_true, objGet, h', if_false]
      simpa [h'] using ih
    · simp only [objDel, beq_iff_eq, h, if_false, objGet]
      by_cases h' : kv.1 = k'
      · simp [h']
      · simp only [beq_iff_eq, h', if_false]
        exact ih

theorem objGet_objMapVals [BEq κ] [LawfulBEq κ] (f : κ → α → α) (m : List (κ × α)) (k : κ) :
    objGet (objMapVals f m) k = (objGet m k).map (f k) := by
  induction m with
  | nil => simp [objGet, objMapVals]
  | cons kv rest ih =>
    by_cases h : kv.1 = k
    · simp [objGet, objMapVals, h]
    · simpa [objGet, objMapVals, h] using ih

theorem keysOf_objMapVals [BEq κ] (f : κ → α → α) (m : List (κ × α)) :
    keysOf (objMapVals f m) = keysOf m := by
  induction m with
  | nil => rfl
  | cons kv rest ih => simp [keysOf, objMapVals]

theorem keysOf_objSet_mem [BEq κ] [LawfulBEq κ] (m : List (κ × α)) (k : κ) (v : α)
    (h : (objGet m k).isSome) : keysOf (objSet m k v) = keysOf m := by
  induction m with
  | nil => simp [objGet] at h
  | cons kv rest ih =>
    by_cases hk : kv.1 = k
    · simp [keysOf, objSet, hk]
    · simp only [objGet, beq_iff_eq, hk, if_false] at h
      simpa [keysOf, objSet, hk] using ih h

theorem mem_of_objGet_eq_some [BEq κ] [LawfulBEq κ] {m : List (κ × α)} {k : κ} {v : α}
    (h : objGet m k = some v) : (k, v) ∈ m := by
  induction m with
  | nil => simp [objGet] at h
  | cons kv rest ih =>
    by_cases hk : kv.1 = k
    · simp only [objGet, beq_iff_eq, hk, if_true, Option.some.injEq] at h
      obtain ⟨a, b⟩ := kv
      simp only at hk h
      subst hk; subst h
      exact List.mem_cons_self _ _
    · simp only [objGet, beq_iff_eq, hk, if_false] at h
      exact List.mem_cons_of_mem _ (ih h)

theorem key_mem_of_objGet_eq_some [BEq κ] [LawfulBEq κ] {m : List (κ × α)} {k : κ} {v : α}
    (h : objGet m k = some v) : k ∈ keysOf m := by
  have := mem_of_objGet_eq_some h
  exact List.mem_map.mpr ⟨(k, v), this, rfl⟩

theorem objGet_eq_some_of_mem [BEq κ] [LawfulBEq κ] {m : List (κ × α)} {k : κ} {v : α}
    (hnd : (keysOf m).Nodup) (hmem : (k, v) ∈ m) : objGet m k = some v := by
  induction m with
  | nil => simp at hmem
  | cons kv rest ih =>
    simp only [keysOf, List.map_cons, List.nodup_cons] at hnd
    rcases List.mem_cons.mp hmem with h | h
    · simp [objGet, ← h]
    · have hne : kv.1 ≠ k := by
        intro hc
        exact hnd.1 (hc ▸ List.mem_map.mpr ⟨(k, v), h, rfl⟩)
      simp only [objGet, beq_iff_eq, hne, if_false]
      exact ih hnd.2 h

/-! ## JS string and truthiness helpers -/

/-- JS `s.startsWith(pre)` (character-level; paths here are ASCII). -/
def jsStartsWith (s pre : String) : Bool :=
  pre.data.isPrefixOf s.data

/-- JS `s.substring(n)` / `s.slice(n)`. -/
def jsSubstringFrom (s : String) (n : Nat) : String :=
  ⟨s.data.drop n⟩

/-- JS `s.length` (character count; ASCII paths make this the UTF-16 length). -/
def strLen (s : String) : Nat :=
  s.data.length

/-- JS `a || b` for optional strings: `undefined` and `""` are falsy. -/
def strOr (a b : Option String) : Option String :=
  match a with
  | some s => if s = "" then b else some s
  | none => b

/-- JS `a || b` for optional numbers: `undefined` and `0` are falsy. -/
def natOr (a b : Option Nat) : Option Nat :=
  match a with
  | some n => if n = 0 then b else some n
  | none => b

/-- JS truthiness of an optional string. -/
def truthyStr (a : Option String) : Bool :=
  match a with
  | some s => !(s = "")
  | none => false

/-- JS `a ?? b` (nullish coalescing) for options. -/
def nullishOr {β : Type} (a b : Option β) : Option β :=
  match a with
  | some x => some x
  | none => b

/-- Spread-merge of one optional field: `{...old, ...new}` keeps the old value
only where the new object does not carry the key. -/
def spreadField {β : Type} (new old : Option β) : Option β :=
  match new with
  | some x => some x
  | none => old

theorem List.isPrefixOf_eq_true_iff (l₁ l₂ : List Char) :
    l₁.isPrefixOf l₂ = true ↔ ∃ t, l₂ = l₁ ++ t := by
  induction l₁ generalizing l₂ with
  | nil => simp [List.isPrefixOf]
  | cons c cs ih =>
    cases l₂ with
    | nil =>
      simp [List.isPrefixOf]
    | cons d ds =>
      simp only [List.isPrefixOf, Bool.and_eq_true, beq_iff_eq, ih, List.cons_append,
        List.cons.injEq]
      constructor
      · rintro ⟨hcd, t, ht⟩
        exact ⟨t, hcd.symm, ht⟩
      · rintro ⟨t, hcd, ht⟩
        exact ⟨hcd.symm, t, ht⟩

theorem jsStartsWith_iff (s pre : String) :
    jsStartsWith s pre = true ↔ ∃ t, s.data = pre.data ++ t := by
  unfold jsStartsWith
  exact List.isPrefixOf_eq_true_iff _ _

theorem jsStartsWith_append (pre : String) (t : List Char) :
    jsStartsWith ⟨pre.data ++ t⟩ pre = true := by
  rw [jsStartsWith_iff]
  exact ⟨t, rfl⟩

/-- Two strict-descendant paths of distinct, non-nested directories are
distinct: `o ++ "/" ++ x ≠ n ++ "/" ++ y` when neither of `o`, `n` lies in
the other's subtree. -/
theorem append_slash_ne (o n : String)
    (h1 : jsStartsWith n ⟨o.data ++ ['/']⟩ = false)
    (h2 : jsStartsWith o ⟨n.data ++ ['/']⟩ = false)
    (hne : o.data ≠ n.data) :
    ∀ x y : List Char, o.data ++ '/' :: x ≠ n.data ++ '/' :: y := by
  have key : ∀ a b : List Char, ∀ x y : List Char,
      a ++ '/' :: x = b ++ '/' :: y →
      a = b ∨ (a ++ ['/']).isPrefixOf b = true ∨ (b ++ ['/']).isPrefixOf a = true := by
    intro a
    induction a with
    | nil =>
      intro b x y h
      cases b with
      | nil => exact Or.inl rfl
      | cons d ds =>
        simp only [List.nil_append, List.cons_append, List.cons.injEq] at h
        refine Or.inr (Or.inl ?_)
        rw [List.isPrefixOf_eq_true_iff]
        exact ⟨ds, by simp [h.1.symm]⟩
    | cons c cs ih =>
      intro b x y h
      cases b with
      | nil =>
        simp only [List.cons_append, List.nil_append, List.cons.injEq] at h
        refine Or.inr (Or.inr ?_)
        rw [List.isPrefixOf_eq_true_iff]
        exact ⟨cs, by simp [h.1]⟩
      | cons d ds =>
        simp only [List.cons_append, List.cons.injEq] at h
        rcases ih ds x y h.2 with hab | hp | hp
        · exact Or.inl (by rw [h.1, hab])
        · refine Or.inr (Or.inl ?_)
          simp [List.isPrefixOf, h.1, hp]
        · refine Or.inr (Or.inr ?_)
          simp [List.isPrefixOf, h.1, hp]
  intro x y hcontra
  rcases key o.data n.data x y hcontra with hab | hp | hp
  · exact hne hab
  · have hfalse : (o.data ++ ['/']).isPrefixOf n.data = false := h1
    rw [hp] at hfalse
    simp at hfalse
  · have hfalse : (n.data ++ ['/']).isPrefixOf o.data = false := h2
    rw [hp] at hfalse
    simp at hfalse

theorem isPrefixOf_length_le {l₁ l₂ : List Char} (h : l₁.isPrefixOf l₂ = true) :
    l₁.length ≤ l₂.length := by
  rw [List.isPrefixOf_eq_true_iff] at h
  obtain ⟨t, ht⟩ := h
  simp [ht]

/-- A path is never a strict descendant of itself. -/
theorem not_jsStartsWith_self_slash (d : String) :
    jsStartsWith d ⟨d.data ++ ['/']⟩ = false := by
  by_contra hcontra
  have h : jsStartsWith d ⟨d.data ++ ['/']⟩ = true := by
    revert hcontra
    cases jsStartsWith d ⟨d.data ++ ['/']⟩ <;> simp
  have := isPrefixOf_length_le (by simpa [jsStartsWith] using h)
  simp at this

/-- `(d ++ "/").data = d.data ++ ['/']`. -/
theorem slash_data (d : String) : (d ++ "/").data = d.data ++ ['/'] := by
  have : ("/" : String).data = ['/'] := rfl
  simp [String.data_append, this]

/-! ## Generic lemmas about the JS `forEach`-mutation folds -/

/-- A fold over a list of keys with a step that only touches its own key
leaves every key outside the list untouched. -/
theorem foldl_keystep_notmem [BEq κ] [LawfulBEq κ]
    (step : List (κ × α) → κ → List (κ × α))
    (hframe : ∀ m q k, k ≠ q → objGet (step m q) k = objGet m k) :
    ∀ (L : List κ) (m : List (κ × α)) (k : κ), k ∉ L →
      objGet (L.foldl step m) k = objGet m k := by
  intro L
  induction L with
  | nil => intro m k _; rfl
  | cons q rest ih =>
    intro m k hk
    rw [List.foldl_cons, ih _ _ (fun h => hk (List.mem_cons_of_mem _ h))]
    exact hframe m q k (fun h => hk (h ▸ List.mem_cons_self _ _))

/-- A fold over a distinct list of keys whose step only touches its own key,
and whose effect on that key is a function `F` of the current value there,
produces `F` of the original value at every listed key. -/
theorem foldl_keystep_mem [BEq κ] [LawfulBEq κ]
    (step : List (κ × α) → κ → List (κ × α)) (F : κ → Option α → Option α)
    (hself : ∀ m q, objGet (step m q) q = F q (objGet m q))
    (hframe : ∀ m q k, k ≠ q → objGet (step m q) k = objGet m k) :
    ∀ (L : List κ) (m : List (κ × α)) (p : κ), L.Nodup → p ∈ L →
      objGet (L.foldl step m) p = F p (objGet m p) := by
  intro L
  induction L with
  | nil => intro m p _ hp; simp at hp
  | cons q rest ih =>
    intro m p hnd hp
    rw [List.foldl_cons]
    rcases List.mem_cons.mp hp with hpq | hpr
    · subst hpq
      rw [foldl_keystep_notmem step hframe rest _ p (List.nodup_cons.mp hnd).1]
      exact hself m p
    · have hne : p ≠ q := by
        intro hc
        exact (List.nodup_cons.mp hnd).1 (hc ▸ hpr)
      rw [ih _ _ (List.nodup_cons.mp hnd).2 hpr, hframe m q p hne]

/-- The step of the directory-children rewrite loop in `renameItem`/`moveItem`:
keys matching `pred` are deleted and re-inserted at `tk` with value `val`. -/
def rewriteStep [BEq κ] (pred : κ → Bool) (tk : κ → κ) (val : κ → α → α)
    (m : List (κ × α)) (kv : κ × α) : List (κ × α) :=
  if pred kv.1 then objSet (objDel m kv.1) (tk kv.1) (val kv.1 kv.2) else m

/-- Keys touched by no step of the rewrite fold keep their binding. -/
theorem foldl_rewrite_frame [BEq κ] [LawfulBEq κ]
    (pred : κ → Bool) (tk : κ → κ) (val : κ → α → α) :
    ∀ (L : List (κ × α)) (m : List (κ × α)) (k : κ),
      (∀ kv ∈ L, pred kv.1 = true → (kv.1 ≠ k ∧ tk kv.1 ≠ k)) →
      objGet (L.foldl (rewriteStep pred tk val) m) k = objGet m k := by
  intro L
  induction L with
  | nil => intro m k _; rfl
  | cons kv rest ih =>
    intro m k hk
    rw [List.foldl_cons, ih _ _ (fun kv' h => hk kv' (List.mem_cons_of_mem _ h))]
    unfold rewriteStep
    by_cases hp : pred kv.1
    · obtain ⟨h1, h2⟩ := hk kv (List.mem_cons_self _ _) hp
      simp only [hp, if_true]
      rw [objGet_objSet_ne _ _ _ _ (Ne.symm h2), objGet_objDel_ne _ _ _ (Ne.symm h1)]
    · simp [hp]

/-- After the rewrite fold, the rewritten key of a listed entry holds the
rewritten value, provided the rewritten key collides with no other listed key
and no other listed entry rewrites to the same key. -/
theorem foldl_rewrite_target [BEq κ] [LawfulBEq κ]
    (pred : κ → Bool) (tk : κ → κ) (val : κ → α → α) :
    ∀ (L : List (κ × α)) (m : List (κ × α)) (p : κ) (c : α),
      (keysOf L).Nodup → (p, c) ∈ L → pred p = true →
      (∀ q ∈ keysOf L, pred q = true → q ≠ p → q ≠ tk p) →
      (∀ q ∈ keysOf L, pred q = true → q ≠ p → tk q ≠ tk p) →
      objGet (L.foldl (rewriteStep pred tk val) m) (tk p) = some (val p c) := by
  intro L
  induction L with
  | nil => intro m p c _ hmem; simp at hmem
  | cons kv rest ih =>
    intro m p c hnd hmem hpred hkey htk
    have hndr : (keysOf rest).Nodup := (List.nodup_cons.mp (by simpa [keysOf] using hnd)).2
    rcases List.mem_cons.mp hmem with hhd | htl
    · have hkv1 : kv.1 = p := by rw [← hhd]
      rw [List.foldl_cons]
      rw [foldl_rewrite_frame pred tk val rest _ (tk p) ?_]
      · unfold rewriteStep
        rw [hkv1, ← hhd]
        simp only [hpred, if_true]
        exact objGet_objSet_self _ _ _
      · intro kv' hkv' hpred'
        have hq : kv'.1 ∈ keysOf (kv :: rest) :=
          List.mem_map.mpr ⟨kv', List.mem_cons_of_mem _ hkv', rfl⟩
        have hqp : kv'.1 ≠ p := by
          intro hc
          have : kv.1 ∉ keysOf rest := (List.nodup_cons.mp (by simpa [keysOf] using hnd)).1
          exact this (hkv1 ▸ hc ▸ List.mem_map.mpr ⟨kv', hkv', rfl⟩)
        exact ⟨hkey kv'.1 hq hpred' hqp, htk kv'.1 hq hpred' hqp⟩
    · have hp_mem : p ∈ keysOf rest := List.mem_map.mpr ⟨(p, c), htl, rfl⟩
      have hkvp : kv.1 ≠ p := by
        intro hc
        exact (List.nodup_cons.mp (by simpa [keysOf] using hnd)).1 (hc ▸ hp_mem)
      rw [List.foldl_cons]
      exact ih _ p c hndr htl hpred
        (fun q hq hpq hqp => hkey q (List.mem_cons_of_mem _ hq) hpq hqp)
        (fun q hq hpq hqp => htk q (List.mem_cons_of_mem _ hq) hpq hqp)

/-- After the rewrite fold, a listed key satisfying `pred` is gone, provided
no other listed entry rewrites onto it and its own rewrite target differs. -/
theorem foldl_rewrite_delold [BEq κ] [LawfulBEq κ]
    (pred : κ → Bool) (tk : κ → κ) (val : κ → α → α) :
    ∀ (L : List (κ × α)) (m : List (κ × α)) (p : κ) (c : α),
      (keysOf L).Nodup → (p, c) ∈ L → pred p = true → tk p ≠ p →
      (∀ q ∈ keysOf L, pred q = true → tk q ≠ p) →
      objGet (L.foldl (rewriteStep pred tk val) m) p = none := by
  intro L
  induction L with
  | nil => intro m p c _ hmem; simp at hmem
  | cons kv rest ih =>
    intro m p c hnd hmem hpred htkp htk
    have hndr : (keysOf rest).Nodup := (List.nodup_cons.mp (by simpa [keysOf] using hnd)).2
    rcases List.mem_cons.mp hmem with hhd | htl
    · have hkv1 : kv.1 = p := by rw [← hhd]
      rw [List.foldl_cons]
      rw [foldl_rewrite_frame pred tk val rest _ p ?_]
      · unfold rewriteStep
        rw [hkv1]
        simp only [hpred, if_true]
        rw [objGet_objSet_ne _ _ _ _ (Ne.symm htkp)]
        exact objGet_objDel_self _ _
      · intro kv' hkv' hpred'
        have hq : kv'.1 ∈ keysOf (kv :: rest) :=
          List.mem_map.mpr ⟨kv', List.mem_cons_of_mem _ hkv', rfl⟩
        have hqp : kv'.1 ≠ p := by
          intro hc
          have : kv.1 ∉ keysOf rest := (List.nodup_cons.mp (by simpa [keysOf] using hnd)).1
          exact this (hkv1 ▸ hc ▸ List.mem_map.mpr ⟨kv', hkv', rfl⟩)
        exact ⟨hqp, htk kv'.1 hq hpred'⟩
    · have hp_mem : p ∈ keysOf rest := List.mem_map.mpr ⟨(p, c), htl, rfl⟩
      have hkvp : kv.1 ≠ p := by
        intro hc
        exact (List.nodup_cons.mp (by simpa [keysOf] using hnd)).1 (hc ▸ hp_mem)
      rw [List.foldl_cons]
      exact ih _ p c hndr htl hpred htkp
        (fun q hq hpq => htk q (List.mem_cons_of_mem _ hq) hpq)

/-! ## Metadata (files) store: data model

Translated from `useFilesStore` (`FileSystemItem`, the `items` path → item
map, and its actions).  Optional TypeScript fields become `Option`s
(`undefined` = `none`); `status: "active" | "trashed"` becomes `FStatus`;
`aliasType: "file" | "app"` becomes `AliasKind` (named to avoid clashing
with the Lean `type` field).  `Date.now()` and `uuidv4()` are passed in as
the `now`/`freshUuid` arguments. -/

inductive FStatus where
  | active
  | trashed
deriving DecidableEq, Repr

inductive AliasKind where
  | file
  | app
deriving DecidableEq, Repr

structure FileSystemItem where
  path : String
  name : String
  isDirectory : Bool
  icon : Option String := none
  type : Option String := none
  appId : Option String := none
  uuid : Option String := none
  size : Option Nat := none
  createdAt : Option Nat := none
  modifiedAt : Option Nat := none
  status : FStatus
  originalPath : Option String := none
  deletedAt : Option Nat := none
  shareId : Option String := none
  createdBy : Option String := none
  storeCreatedAt : Option Nat := none
  windowWidth : Option Nat := none
  windowHeight : Option Nat := none
  aliasTarget : Option String := none
  aliasKind : Option AliasKind := none
deriving DecidableEq, Repr

/-- The `items` map plus the persisted `libraryState` flag. -/
structure FilesState where
  items : List (String × FileSystemItem)
  libraryState : String
deriving DecidableEq, Repr

/-- JS `s.split(sep)` over the character list (structurally recursive so
that concrete states evaluate inside the kernel). -/
def jsSplitChars (sep : Char) : List Char → List (List Char)
  | [] => [[]]
  | c :: rest =>
    match jsSplitChars sep rest with
    | h :: t => if c == sep then [] :: h :: t else (c :: h) :: t
    | [] => [[c]]

def jsSplit (s : String) (sep : Char) : List String :=
  (jsSplitChars sep s.data).map (fun l => ⟨l⟩)

/-- JS `parts.join(sep)`. -/
def jsJoin (sep : String) : List String → String
  | [] => ""
  | [a] => a
  | a :: rest => a ++ sep ++ jsJoin sep rest

/-- `getParentPath` from the files store. -/
def getParentPath (path : String) : String :=
  if path = "/" then "/"
  else
    let parts := (jsSplit path '/').filter (fun s => !(s = ""))
    if parts.length ≤ 1 then "/"
    else "/" ++ jsJoin "/" parts.dropLast

/-- Argument of `addItem` (`Omit<FileSystemItem, "status">`). -/
structure NewItemData where
  path : String
  name : String
  isDirectory : Bool
  icon : Option String := none
  type : Option String := none
  appId : Option String := none
  uuid : Option String := none
  size : Option Nat := none
  createdAt : Option Nat := none
  modifiedAt : Option Nat := none
  originalPath : Option String := none
  deletedAt : Option Nat := none
  shareId : Option String := none
  createdBy : Option String := none
  storeCreatedAt : Option Nat := none
  windowWidth : Option Nat := none
  windowHeight : Option Nat := none
  aliasTarget : Option String := none
  aliasKind : Option AliasKind := none
deriving DecidableEq, Repr

/-- The `newItem` object built at the top of `addItem`: status defaults to
`active`, files get a fresh uuid when none is passed, timestamps default to
`now`. -/
def mkNewItem (d : NewItemData) (now : Nat) (freshUuid : String) : FileSystemItem :=
  { path := d.path
    name := d.name
    isDirectory := d.isDirectory
    icon := d.icon
    type := d.type
    appId := d.appId
    uuid := strOr d.uuid (if !d.isDirectory then some freshUuid else none)
    size := d.size
    createdAt := natOr d.createdAt (some now)
    modifiedAt := natOr d.modifiedAt (some now)
    status := .active
    originalPath := d.originalPath
    deletedAt := d.deletedAt
    shareId := d.shareId
    createdBy := d.createdBy
    storeCreatedAt := d.storeCreatedAt
    windowWidth := d.windowWidth
    windowHeight := d.windowHeight
    aliasTarget := d.aliasTarget
    aliasKind := d.aliasKind }

/-- The `{...existingItem, ...newItem, uuid: ..., createdAt: ..., ...}` merge
in `addItem` when the path already exists. -/
def mergeItems (ex newItem : FileSystemItem) (now : Nat) : FileSystemItem :=
  { path := newItem.path
    name := newItem.name
    isDirectory := newItem.isDirectory
    icon := spreadField newItem.icon ex.icon
    type := spreadField newItem.type ex.type
    appId := spreadField newItem.appId ex.appId
    uuid := strOr ex.uuid newItem.uuid
    size := spreadField newItem.size ex.size
    createdAt := natOr ex.createdAt newItem.createdAt
    modifiedAt := natOr newItem.modifiedAt (some now)
    status := newItem.status
    originalPath := spreadField newItem.originalPath ex.originalPath
    deletedAt := spreadField newItem.deletedAt ex.deletedAt
    shareId := nullishOr newItem.shareId ex.shareId
    createdBy := nullishOr newItem.createdBy ex.createdBy
    storeCreatedAt := nullishOr newItem.storeCreatedAt ex.storeCreatedAt
    windowWidth := spreadField newItem.windowWidth ex.windowWidth
    windowHeight := spreadField newItem.windowHeight ex.windowHeight
    aliasTarget := spreadField newItem.aliasTarget ex.aliasTarget
    aliasKind := spreadField newItem.aliasKind ex.aliasKind }

/-- The parent-directory validation at the top of `addItem`'s `set`
callback: fails when the parent path (root `/` excepted) is missing, not a
directory, or trashed. -/
def addItemParentInvalid (s : FilesState) (parentPath : String) : Bool :=
  !(parentPath = "/") &&
    (match objGet s.items parentPath with
      | none => true
      | some parent => !parent.isDirectory || parent.status == .trashed)

def addItem (s : FilesState) (d : NewItemData) (now : Nat) (freshUuid : String) : FilesState :=
  let newItem := mkNewItem d now freshUuid
  let parentPath := getParentPath newItem.path
  if addItemParentInvalid s parentPath then s
  else
    match objGet s.items newItem.path with
    | some existingItem =>
      { items := objSet s.items newItem.path (mergeItems existingItem newItem now)
        libraryState := "loaded" }
    | none =>
      let updatedItems := objSet s.items newItem.path newItem
      let updatedItems2 :=
        if parentPath == "/Trash" &&
            !((match objGet s.items "/Trash" with
                | some tr => tr.icon
                | none => none) == some "/icons/trash-full.png") then
          match objGet s.items "/Trash" with
          | some tr => objSet updatedItems "/Trash" { tr with icon := some "/icons/trash-full.png" }
          | none => updatedItems
        else updatedItems
      { items := updatedItems2, libraryState := "loaded" }

/-- The trash-icon reconciliation done at the end of `removeItem` and
`restoreItem`. -/
def trashIconUpdate (m : List (String × FileSystemItem)) : List (String × FileSystemItem) :=
  let trashIsEmpty := m.all (fun kv => !(kv.2.status == .trashed))
  match objGet m "/Trash" with
  | some tr =>
    objSet m "/Trash"
      { tr with icon := some (if trashIsEmpty then "/icons/trash-empty.png" else "/icons/trash-full.png") }
  | none => m

/-- One iteration of the `itemsToDelete.forEach` loop of `removeItem`,
acting on the map and on the `deletedContentPaths` accumulator. -/
def removeItemStep (isPermanentDelete : Bool) (now : Nat)
    (acc : List (String × FileSystemItem) × List String) (p : String) :
    List (String × FileSystemItem) × List String :=
  match objGet acc.1 p with
  | none => acc
  | some currentItem =>
    if isPermanentDelete then
      (objDel acc.1 p, if !currentItem.isDirectory then acc.2 ++ [p] else acc.2)
    else if currentItem.status == .active then
      (objSet acc.1 p
        { currentItem with status := .trashed, originalPath := some p, deletedAt := some now },
       acc.2)
    else acc

/-- `removeItem` plus the `deletedContentPaths` list the loop accumulates.
The store's action has return type `void`, so the list is computed and then
dropped (`removeItem` below); the code itself notes "We don't return
deletedContentPaths here, hook needs to manage content separately". -/
def removeItemAux (s : FilesState) (path : String) (permanent : Bool) (now : Nat) :
    FilesState × List String :=
  match objGet s.items path with
  | none => (s, [])
  | some itemToRemove =>
    let itemsToDelete :=
      path ::
        (if itemToRemove.isDirectory then
          (keysOf s.items).filter (fun q => jsStartsWith q (path ++ "/"))
        else [])
    let isPermanentDelete := permanent || itemToRemove.status == .trashed
    let res := itemsToDelete.foldl (removeItemStep isPermanentDelete now) (s.items, [])
    ({ s with items := trashIconUpdate res.1 }, res.2)

/-- `removeItem(path, permanent = false)`: soft-deletes (status `trashed`)
by default, permanently deletes when the flag is set or the item is already
trashed.  Returns only the new state (the TS action returns `void`). -/
def removeItem (s : FilesState) (path : String) (permanent : Bool) (now : Nat) : FilesState :=
  (removeItemAux s path permanent now).1

/-- One iteration of the `itemsToRestore.forEach` loop of `restoreItem`. -/
def restoreItemStep (m : List (String × FileSystemItem)) (p : String) :
    List (String × FileSystemItem) :=
  match objGet m p with
  | some currentItem =>
    if currentItem.status == .trashed then
      objSet m p { currentItem with status := .active, originalPath := none, deletedAt := none }
    else m
  | none => m

/-- `restoreItem(path)`: restores a trashed item (and its trashed
descendants, when a directory) to `active`, clearing the trash stamps. -/
def restoreItem (s : FilesState) (path : String) : FilesState :=
  match objGet s.items path with
  | none => s
  | some itemToRestore =>
    if !(itemToRestore.status == .trashed) then s
    else
      let itemsToRestore :=
        path ::
          (if itemToRestore.isDirectory then
            (keysOf s.items).filter (fun q =>
              jsStartsWith q (path ++ "/") &&
                (match objGet s.items q with
                  | some it => it.status == .trashed
                  | none => false))
          else [])
      { s with items := trashIconUpdate (itemsToRestore.foldl restoreItemStep s.items) }

/-- `renameItem(oldPath, newPath, newName)`: moves the key, rewrites the
`path`/`name` fields, and prefix-rewrites every strict-descendant key when
renaming a directory (clearing/refreshing `originalPath` as the code does). -/
def renameItem (s : FilesState) (oldPath newPath newName : String) : FilesState :=
  match objGet s.items oldPath with
  | none => s
  | some itemToRename =>
    if !(itemToRename.status == .active) then s
    else if (objGet s.items newPath).isSome then s
    else
      let m1 := objDel s.items oldPath
      let m2 := objSet m1 newPath { itemToRename with path := newPath, name := newName }
      let m3 :=
        if itemToRename.isDirectory then
          s.items.foldl
            (rewriteStep (fun q => jsStartsWith q (oldPath ++ "/"))
              (fun q => newPath ++ jsSubstringFrom q (strLen oldPath))
              (fun q c =>
                { c with
                  path := newPath ++ jsSubstringFrom q (strLen oldPath)
                  originalPath :=
                    if c.status == .trashed then
                      some (newPath ++ jsSubstringFrom q (strLen oldPath))
                    else none }))
            m2
        else m2
      { s with items := m3 }

/-- `moveItem(sourcePath, destinationPath)`: returns the `success` boolean
the store action returns, alongside the new state. -/
def moveItem (s : FilesState) (sourcePath destinationPath : String) : Bool × FilesState :=
  match objGet s.items sourcePath with
  | none => (false, s)
  | some sourceItem =>
    if !(sourceItem.status == .active) then (false, s)
    else
      let destinationParent := getParentPath destinationPath
      match objGet s.items destinationParent with
      | none => (false, s)
      | some parent =>
        if !parent.isDirectory then (false, s)
        else if (objGet s.items destinationPath).isSome then (false, s)
        else if sourceItem.isDirectory && jsStartsWith destinationPath (sourcePath ++ "/") then
          (false, s)
        else
          let m1 := objDel s.items sourcePath
          let m2 := objSet m1 destinationPath { sourceItem with path := destinationPath }
          let m3 :=
            if sourceItem.isDirectory then
              s.items.foldl
                (rewriteStep (fun q => jsStartsWith q (sourcePath ++ "/"))
                  (fun q => destinationPath ++ jsSubstringFrom q (strLen sourcePath))
                  (fun q c =>
                    { c with path := destinationPath ++ jsSubstringFrom q (strLen sourcePath) }))
                m2
            else m2
          (true, { s with items := m3 })

/-- `isActiveAtPath` closure inside `createAlias`. -/
def isActiveAtPath (m : List (String × FileSystemItem)) (p : String) : Bool :=
  match objGet m p with
  | some existing => existing.status == .active
  | none => false

/-- The numbered candidate `/Desktop/<base> <counter><ext>` built in the
body of `createAlias`'s while loop (the extension split is recomputed from
`name` on every iteration, so it is a pure function of `name`/`counter`). -/
def mkAliasCandidate (name : String) (counter : Nat) : String :=
  let ext := if name.data.contains '.' then "." ++ ((jsSplit name '.').getLast?.getD "") else ""
  let baseName :=
    if !(ext = "") then (⟨name.data.take (name.data.length - strLen ext)⟩ : String) else name
  "/Desktop/" ++ baseName ++ " " ++ toString counter ++ ext

/-- The `while (isActiveAtPath(finalAliasPath))` loop of `createAlias`,
run with enough fuel (`|items| + 1` candidates are pairwise distinct, so the
JS loop always stops within that many iterations). -/
def aliasPathLoop (m : List (String × FileSystemItem)) (name cand : String)
    (counter fuel : Nat) : String :=
  match fuel with
  | 0 => cand
  | fuel + 1 =>
    if isActiveAtPath m cand then aliasPathLoop m name (mkAliasCandidate name counter) (counter + 1) fuel
    else cand

/-- `createAlias(targetPath, aliasName, aliasType, targetAppId?)` from the
files store. -/
def createAlias (s : FilesState) (targetPath aliasName : String) (kind : AliasKind)
    (targetAppId : Option String) (now : Nat) : FilesState :=
  match objGet s.items "/Desktop" with
  | none => s
  | some desk =>
    if !desk.isDirectory then s
    else
      let originalItem : Option FileSystemItem :=
        if kind == .app && truthyStr targetAppId then none else objGet s.items targetPath
      let iconAndName : Option String × String :=
        if kind == .app && truthyStr targetAppId then (none, aliasName)
        else
          match objGet s.items targetPath with
          | some orig =>
            (orig.icon, if aliasName = "" || aliasName = orig.name then orig.name else aliasName)
          | none => (some "/icons/default/file.png", aliasName)
      let icon := iconAndName.1
      let name := iconAndName.2
      let aliasPath := "/Desktop/" ++ name
      let newItems :=
        match objGet s.items aliasPath with
        | some existingAtAliasPath =>
          if existingAtAliasPath.status == .trashed then objDel s.items aliasPath else s.items
        | none => s.items
      let finalAliasPath := aliasPathLoop newItems name aliasPath 1 (newItems.length + 1)
      let aliasItem : FileSystemItem :=
        { path := finalAliasPath
          name :=
            (match (jsSplit finalAliasPath '/').getLast? with
              | some seg => if seg = "" then name else seg
              | none => name)
          isDirectory := false
          icon := icon
          type :=
            if kind == .app then some "application"
            else strOr (match originalItem with | some o => o.type | none => none) (some "alias")
          appId := if kind == .app then targetAppId else none
          status := .active
          createdAt := some now
          modifiedAt := some now
          aliasTarget :=
            if kind == .app && truthyStr targetAppId then targetAppId else some targetPath
          aliasKind := some kind }
      { s with items := objSet newItems finalAliasPath aliasItem }

/-! ## File System Facade (`useFileSystem`), metadata effects

`moveToTrash`/`restoreFromTrash` additionally shuffle content blobs between
IndexedDB buckets; those asynchronous side effects live outside the metadata
map and are not part of this model — only the store mutations are. -/

/-- `moveToTrash(fileMetadata)`: guards and delegates to the store's
soft `removeItem`. -/
def moveToTrash (s : FilesState) (fileMetadata : FileSystemItem) (now : Nat) : FilesState :=
  if fileMetadata.path = "/" || fileMetadata.path = "/Trash" ||
      fileMetadata.status == .trashed then s
  else removeItem s fileMetadata.path false now

/-- `restoreFromTrash(itemToRestore)`: guards (present, trashed, truthy
`originalPath`) and delegates to the store's `restoreItem`. -/
def restoreFromTrash (s : FilesState) (path : String) : FilesState :=
  match objGet s.items path with
  | none => s
  | some fileMetadata =>
    if fileMetadata.status == .trashed && truthyStr fileMetadata.originalPath then
      restoreItem s path
    else s

/-- Outcome of the alias-resolution prologue of `handleFileOpen`. -/
inductive ResolveOutcome where
  | resolvedFile (f : FileSystemItem)
  | launchedApp (appId : String)
  | cycleDetected (atPath : String)
  | targetMissing (target : String)
  | depthExceeded
deriving DecidableEq, Repr

/-- The `while (!resolved && depth < maxDepth)` alias-resolution loop of
`handleFileOpen`: `fuel` is the remaining budget (`maxDepth - depth`,
`depth++` runs at the top of every iteration, including the terminal one),
`visited` the `visitedPaths` set.  Returns the outcome together with the
fuel left when the loop stopped, so the caller can replay the source's
post-loop `depth >= maxDepth` check (`depth = maxDepth - fuelLeft`).  The
loop only reads the store (`fileStore.getItem`); the store is not mutated
on any path through it. -/
def resolveAliasLoop (items : List (String × FileSystemItem)) (fuel : Nat)
    (visited : List String) (currentFile : FileSystemItem) : ResolveOutcome × Nat :=
  match fuel with
  | 0 => (.depthExceeded, 0)
  | fuel + 1 =>
    match objGet items currentFile.path with
    | some fileMetadata =>
      if fileMetadata.aliasKind.isSome && truthyStr fileMetadata.aliasTarget then
        if visited.contains currentFile.path then (.cycleDetected currentFile.path, fuel)
        else
          let visited2 := currentFile.path :: visited
          if fileMetadata.aliasKind == some .app then
            (.launchedApp (fileMetadata.aliasTarget.getD ""), fuel)
          else
            let targetPath := fileMetadata.aliasTarget.getD ""
            match objGet items targetPath with
            | none => (.targetMissing targetPath, fuel)
            | some targetFile => resolveAliasLoop items fuel visited2 targetFile
      else (.resolvedFile currentFile, fuel)
    | none => (.resolvedFile currentFile, fuel)

/-- `handleFileOpen`'s alias resolution with the source's `maxDepth = 10`,
including the post-loop `if (depth >= maxDepth) return;` rejection: a file
resolved on the very last iteration (`depth = 10`, i.e. no fuel left) is
discarded with the max-depth warning.  The in-loop `return` paths (cycle,
app alias, missing target) bypass that check, as in the source. -/
def handleFileOpenResolve (items : List (String × FileSystemItem))
    (file : FileSystemItem) : ResolveOutcome :=
  match resolveAliasLoop items 10 [] file with
  | (.resolvedFile f, fuelLeft) =>
    if fuelLeft = 0 then .depthExceeded else .resolvedFile f
  | (out, _) => out

/-! ## Instance/Window Manager (`useAppStore`)

Instance ids are the decimal strings of the monotonically assigned
`nextInstanceId` counter, modelled as `Nat`.  Because such keys are
integer-like, the JS object enumerates them in ascending numeric order,
which assignment in ascending id order also preserves; the association-list
order models that enumeration order.  Browser reads (`window.innerWidth`,
`getWindowConfig`, `Date.now()`) are passed in through `Env`. -/

structure AppInstance where
  instanceId : Nat
  appId : String
  title : Option String := none
  displayTitle : Option String := none
  isOpen : Bool
  isForeground : Bool := false
  isLoading : Bool := false
  isMinimized : Bool := false
  posX : Nat := 0
  posY : Nat := 0
  width : Nat := 0
  height : Nat := 0
  createdAt : Nat := 0
  initialData : Option String := none
deriving DecidableEq, Repr

/-- The instance-management slice of the app store state (the legacy
app-level `apps`/`windowOrder` fields are untouched by the instance
operations and omitted). -/
structure AppStoreState where
  instances : List (Nat × AppInstance)
  instanceOrder : List Nat
  foregroundInstanceId : Option Nat
  nextInstanceId : Nat
deriving DecidableEq, Repr

/-- Browser environment read by `createAppInstance`. -/
structure Env where
  isMobile : Bool
  innerWidth : Nat
  defaultWidth : String → Nat
  defaultHeight : String → Nat
  now : Nat

/-- `createAppInstance(appId, initialData?, title?)`: allocates the next id,
computes the staggered position/size, marks non-Finder apps as lazy-loading
(background), appends to `instanceOrder` and returns the new id. -/
def createAppInstance (env : Env) (s : AppStoreState) (appId : String)
    (initialData title : Option String) : Nat × AppStoreState :=
  let nextNum := s.nextInstanceId + 1
  let createdId := nextNum
  let openInstances := s.instanceOrder.length
  let posX := if env.isMobile then 0 else 16 + openInstances * 32
  let posY := if env.isMobile then 28 + openInstances * 32 else 40 + openInstances * 20
  let width := if env.isMobile then env.innerWidth else env.defaultWidth appId
  let height := env.defaultHeight appId
  let isLazy := !(appId == "finder")
  let newInst : AppInstance :=
    { instanceId := createdId
      appId := appId
      isOpen := true
      isForeground := !isLazy
      isLoading := isLazy
      isMinimized := false
      initialData := initialData
      title := title
      posX := posX
      posY := posY
      width := width
      height := height
      createdAt := env.now }
  let instances1 := objSet s.instances createdId newInst
  let instances2 :=
    if !isLazy then
      objMapVals (fun k v => if !(k == createdId) then { v with isForeground := false } else v)
        instances1
    else instances1
  let order := s.instanceOrder.filter (fun i => !(i == createdId)) ++ [createdId]
  (createdId,
    { instances := instances2
      instanceOrder := order
      foregroundInstanceId := if isLazy then s.foregroundInstanceId else some createdId
      nextInstanceId := nextNum })

/-- `markInstanceAsLoaded(instanceId)`: no-op unless currently loading;
otherwise loads, steals foreground from everyone, moves to the tail. -/
def markInstanceAsLoaded (s : AppStoreState) (instanceId : Nat) : AppStoreState :=
  match objGet s.instances instanceId with
  | none => s
  | some inst =>
    if !inst.isLoading then s
    else
      let instances1 :=
        objMapVals (fun k v => { v with isForeground := k == instanceId }) s.instances
      let instances2 :=
        objSet instances1 instanceId { inst with isLoading := false, isForeground := true }
      let order := s.instanceOrder.filter (fun i => !(i == instanceId)) ++ [instanceId]
      { instances := instances2
        instanceOrder := order
        foregroundInstanceId := some instanceId
        nextInstanceId := s.nextInstanceId }

/-- `closeAppInstance(instanceId)`: removes the instance, picks the next
foreground (last same-app open instance in order, else last overall), and
moves it to the tail. -/
def closeAppInstance (s : AppStoreState) (instanceId : Nat) : AppStoreState :=
  match objGet s.instances instanceId with
  | none => s
  | some inst =>
    if !inst.isOpen then s
    else
      let instances1 := objDel s.instances instanceId
      let order1 := s.instanceOrder.filter (fun i => !(i == instanceId))
      let sameApp :=
        order1.reverse.find? (fun i =>
          match objGet instances1 i with
          | some x => x.appId == inst.appId && x.isOpen
          | none => false)
      let nextForeground :=
        match sameApp with
        | some i => some i
        | none => if order1.length > 0 then order1.getLast? else none
      let instances2 :=
        objMapVals (fun k v => { v with isForeground := some k == nextForeground }) instances1
      let order2 :=
        match nextForeground with
        | some nf => order1.filter (fun i => !(i == nf)) ++ [nf]
        | none => order1
      { instances := instances2
        instanceOrder := order2
        foregroundInstanceId := nextForeground
        nextInstanceId := s.nextInstanceId }

/-- `bringInstanceToForeground(instanceId | null)`: `null` blurs everything;
otherwise sets the single foreground flag and moves the id to the tail
(warns and no-ops when the instance does not exist). -/
def bringInstanceToForeground (s : AppStoreState) (instanceId : Option Nat) : AppStoreState :=
  match instanceId with
  | none =>
    { s with
      instances := objMapVals (fun _ v => { v with isForeground := false }) s.instances
      foregroundInstanceId := none }
  | some iid =>
    match objGet s.instances iid with
    | none => s
    | some _ =>
      { instances := objMapVals (fun k v => { v with isForeground := k == iid }) s.instances
        instanceOrder := s.instanceOrder.filter (fun i => !(i == iid)) ++ [iid]
        foregroundInstanceId := some iid
        nextInstanceId := s.nextInstanceId }

/-- The `if (nextForeground) instances[nextForeground] = {...instances[nextForeground],
isForeground: true}` step of `minimizeInstance`. -/
def applyNextForeground (instances1 : List (Nat × AppInstance)) (nextForeground : Option Nat) :
    List (Nat × AppInstance) :=
  match nextForeground with
  | some nf =>
    match objGet instances1 nf with
    | some x => objSet instances1 nf { x with isForeground := true }
    | none => instances1
  | none => instances1

/-- The candidate scan of `minimizeInstance`: the last id in `instanceOrder`
other than the minimized one whose instance is open and not minimized. -/
def minimizeNextForeground (instances1 : List (Nat × AppInstance)) (order : List Nat)
    (instanceId : Nat) : Option Nat :=
  order.reverse.find? (fun i =>
    !(i == instanceId) &&
      (match objGet instances1 i with
        | some x => x.isOpen && !x.isMinimized
        | none => false))

/-- `minimizeInstance(instanceId)`: no-op when missing or already minimized;
otherwise sets `isMinimized`, drops its foreground flag, and hands
foreground to the last non-minimized open instance in `instanceOrder`
(leaving `instanceOrder` itself untouched). -/
def minimizeInstance (s : AppStoreState) (instanceId : Nat) : AppStoreState :=
  match objGet s.instances instanceId with
  | none => s
  | some inst =>
    if inst.isMinimized then s
    else
      let instances1 :=
        objSet s.instances instanceId { inst with isMinimized := true, isForeground := false }
      let nextForeground := minimizeNextForeground instances1 s.instanceOrder instanceId
      { s with
        instances := applyNextForeground instances1 nextForeground
        foregroundInstanceId := nextForeground }

/-- `restoreInstance(instanceId)`: no-op unless minimized; otherwise clears
everyone's foreground, un-minimizes, seizes foreground, moves to the tail. -/
def restoreInstance (s : AppStoreState) (instanceId : Nat) : AppStoreState :=
  match objGet s.instances instanceId with
  | none => s
  | some inst =>
    if !inst.isMinimized then s
    else
      let instances1 := objMapVals (fun _ v => { v with isForeground := false }) s.instances
      let instances2 :=
        objSet instances1 instanceId { inst with isMinimized := false, isForeground := true }
      let order := s.instanceOrder.filter (fun i => !(i == instanceId)) ++ [instanceId]
      { instances := instances2
        instanceOrder := order
        foregroundInstanceId := some instanceId
        nextInstanceId := s.nextInstanceId }

/-- The `set(...)` in `launchApp` refreshing `initialData` of an existing
instance (in the code's reachable paths the instance always exists). -/
def refreshInitialData (s : AppStoreState) (iid : Nat) (d : Option String) : AppStoreState :=
  match objGet s.instances iid with
  | some inst => { s with instances := objSet s.instances iid { inst with initialData := d } }
  | none => s

/-- The tail of `launchApp` after the all-minimized-restore block: the
multi-window check (with `"textedit"` and `"finder"` hard-coded), focusing
an existing open instance for single-window apps, else creating one.  Reads
come from the state captured at the top of `launchApp`. -/
def launchAppTail (env : Env) (s : AppStoreState) (appId : String)
    (initialData title : Option String) (multiWindow : Bool) : Nat × AppStoreState :=
  let supportsMultiWindow := multiWindow || appId == "textedit" || appId == "finder"
  if !supportsMultiWindow then
    match (s.instances.map (·.2)).find? (fun i => i.appId == appId && i.isOpen) with
    | some existing =>
      let s2 := bringInstanceToForeground s (some existing.instanceId)
      let s3 := if truthyStr initialData then refreshInitialData s2 existing.instanceId initialData else s2
      (existing.instanceId, s3)
    | none => createAppInstance env s appId initialData title
  else createAppInstance env s appId initialData title

/-- `launchApp(appId, initialData?, title?, multiWindow = false)`. -/
def launchApp (env : Env) (s : AppStoreState) (appId : String)
    (initialData title : Option String) (multiWindow : Bool) : Nat × AppStoreState :=
  let appInstances := (s.instances.map (·.2)).filter (fun i => i.appId == appId && i.isOpen)
  if appInstances.length > 0 && appInstances.all (·.isMinimized) then
    let s1 :=
      appInstances.foldl
        (fun st i => if i.isMinimized then restoreInstance st i.instanceId else st) s
    match ((appInstances.filter (·.isMinimized)).getLast?).map (·.instanceId) with
    | some lastRestoredId =>
      let s2 := bringInstanceToForeground s1 (some lastRestoredId)
      let s3 :=
        if truthyStr initialData then refreshInitialData s2 lastRestoredId initialData else s2
      (lastRestoredId, s3)
    | none => launchAppTail env s appId initialData title multiWindow
  else launchAppTail env s appId initialData title multiWindow

/-! ## Supporting lemmas about the path predicates and the store steps -/

theorem jsStartsWith_slash_eq (s d : String) :
    jsStartsWith s (d ++ "/") = (d.data ++ ['/']).isPrefixOf s.data := by
  unfold jsStartsWith
  rw [slash_data]

theorem jsStartsWith_self_slash (d : String) : jsStartsWith d (d ++ "/") = false := by
  rw [jsStartsWith_slash_eq]
  have h := not_jsStartsWith_self_slash d
  simpa [jsStartsWith] using h

theorem string_eq_of_data_eq {a b : String} (h : a.data = b.data) : a = b := by
  cases a
  cases b
  exact congrArg String.mk (by simpa using h)

theorem string_ne_of_data_ne {a b : String} (h : a.data ≠ b.data) : a ≠ b := by
  intro hc
  exact h (by rw [hc])

/-- Structure of a strict descendant path. -/
theorem descendant_structure {d q : String} (h : jsStartsWith q (d ++ "/") = true) :
    ∃ r : List Char, q.data = d.data ++ '/' :: r := by
  rw [jsStartsWith_slash_eq, List.isPrefixOf_eq_true_iff] at h
  obtain ⟨t, ht⟩ := h
  exact ⟨t, by simpa using ht⟩

/-- The relative suffix the rename/move loops compute for a descendant. -/
theorem jsSubstringFrom_of_descendant {d q : String} {r : List Char}
    (h : q.data = d.data ++ '/' :: r) :
    jsSubstringFrom q (strLen d) = ⟨'/' :: r⟩ := by
  unfold jsSubstringFrom strLen
  rw [h, List.drop_left]

theorem data_append_chars (n : String) (l : List Char) :
    (n ++ (⟨l⟩ : String)).data = n.data ++ l := by
  simp [String.data_append]

/-- A rewritten child path is a strict descendant of the new parent path. -/
theorem tk_data {newPath d q : String} {r : List Char} (h : q.data = d.data ++ '/' :: r) :
    (newPath ++ jsSubstringFrom q (strLen d)).data = newPath.data ++ '/' :: r := by
  rw [jsSubstringFrom_of_descendant h, data_append_chars]

theorem ne_of_data_append_cons {a b : String} {c : Char} {r : List Char}
    (h : b.data = a.data ++ c :: r) : b ≠ a := by
  apply string_ne_of_data_ne
  rw [h]
  intro hc
  have := congrArg List.length hc
  simp at this

/-- `removeItemStep`'s map component ignores the `deletedContentPaths`
accumulator. -/
def removeItemMapStep (isPermanentDelete : Bool) (now : Nat)
    (m : List (String × FileSystemItem)) (p : String) : List (String × FileSystemItem) :=
  (removeItemStep isPermanentDelete now (m, []) p).1

theorem removeItemStep_fst (b : Bool) (n : Nat) (acc : List (String × FileSystemItem) × List String)
    (p : String) : (removeItemStep b n acc p).1 = removeItemMapStep b n acc.1 p := by
  unfold removeItemMapStep removeItemStep
  cases hq : objGet acc.1 p with
  | none => rfl
  | some c =>
    by_cases hb : b
    · simp [hb]
    · by_cases hs : c.status == FStatus.active
      · simp [hb, hs]
      · simp [hb, hs]

theorem removeFold_fst (b : Bool) (n : Nat) :
    ∀ (L : List String) (m : List (String × FileSystemItem)) (l : List String),
      (L.foldl (removeItemStep b n) (m, l)).1 = L.foldl (removeItemMapStep b n) m := by
  intro L
  induction L with
  | nil => intro m l; rfl
  | cons q rest ih =>
    intro m l
    rw [List.foldl_cons, List.foldl_cons]
    have heta : removeItemStep b n (m, l) q =
        ((removeItemStep b n (m, l) q).1, (removeItemStep b n (m, l) q).2) := rfl
    rw [heta, removeItemStep_fst]
    exact ih _ _

/-- The per-key effect of the `removeItem` loop. -/
def removeItemEffect (b : Bool) (n : Nat) (q : String) :
    Option FileSystemItem → Option FileSystemItem
  | none => none
  | some c =>
    if b then none
    else if c.status == .active then
      some { c with status := .trashed, originalPath := some q, deletedAt := some n }
    else some c

theorem removeItemMapStep_self (b : Bool) (n : Nat) (m : List (String × FileSystemItem))
    (q : String) : objGet (removeItemMapStep b n m q) q = removeItemEffect b n q (objGet m q) := by
  unfold removeItemMapStep removeItemStep removeItemEffect
  cases hq : objGet m q with
  | none => simp [hq]
  | some c =>
    by_cases hb : b
    · simp [hq, hb, objGet_objDel_self]
    · by_cases hs : c.status == FStatus.active
      · simp [hq, hb, hs, objGet_objSet_self]
      · simp [hq, hb, hs]

theorem removeItemMapStep_frame (b : Bool) (n : Nat) (m : List (String × FileSystemItem))
    (q k : String) (hne : k ≠ q) :
    objGet (removeItemMapStep b n m q) k = objGet m k := by
  unfold removeItemMapStep removeItemStep
  cases hq : objGet m q with
  | none => rfl
  | some c =>
    by_cases hb : b
    · simp [hb, objGet_objDel_ne _ _ _ hne]
    · by_cases hs : c.status == FStatus.active
      · simp [hb, hs, objGet_objSet_ne _ _ _ _ hne]
      · simp [hb, hs]

theorem keysOf_removeItemMapStep_soft (n : Nat) (m : List (String × FileSystemItem))
    (q : String) : keysOf (removeItemMapStep false n m q) = keysOf m := by
  unfold removeItemMapStep removeItemStep
  cases hq : objGet m q with
  | none => rfl
  | some c =>
    by_cases hs : c.status == FStatus.active
    · simp only [hs, if_true, Bool.false_eq_true, if_false]
      exact keysOf_objSet_mem _ _ _ (by simp [hq])
    · simp [hs]

/-- The per-key effect of the `restoreItem` loop. -/
def restoreItemEffect : Option FileSystemItem → Option FileSystemItem
  | none => none
  | some c =>
    if c.status == .trashed then
      some { c with status := .active, originalPath := none, deletedAt := none }
    else some c

theorem restoreItemStep_self (m : List (String × FileSystemItem)) (q : String) :
    objGet (restoreItemStep m q) q = restoreItemEffect (objGet m q) := by
  unfold restoreItemStep restoreItemEffect
  cases hq : objGet m q with
  | none => simp [hq]
  | some c =>
    by_cases hs : c.status == FStatus.trashed
    · simp [hq, hs, objGet_objSet_self]
    · simp [hq, hs]

theorem restoreItemStep_frame (m : List (String × FileSystemItem)) (q k : String)
    (hne : k ≠ q) : objGet (restoreItemStep m q) k = objGet m k := by
  unfold restoreItemStep
  cases hq : objGet m q with
  | none => rfl
  | some c =>
    by_cases hs : c.status == FStatus.trashed
    · simp [hs, objGet_objSet_ne _ _ _ _ hne]
    · simp [hs]

theorem keysOf_restoreItemStep (m : List (String × FileSystemItem)) (q : String) :
    keysOf (restoreItemStep m q) = keysOf m := by
  unfold restoreItemStep
  cases hq : objGet m q with
  | none => rfl
  | some c =>
    by_cases hs : c.status == FStatus.trashed
    · simp only [hs, if_true]
      exact keysOf_objSet_mem _ _ _ (by simp [hq])
    · simp [hs]

theorem keysOf_foldl_invariant {β : Type} (step : List (String × FileSystemItem) → β →
    List (String × FileSystemItem)) (h : ∀ m q, keysOf (step m q) = keysOf m) :
    ∀ (L : List β) (m : List (String × FileSystemItem)),
      keysOf (List.foldl step m L) = keysOf m := by
  intro L
  induction L with
  | nil => intro m; rfl
  | cons q rest ih =>
    intro m
    rw [List.foldl_cons, ih, h]

theorem objGet_trashIconUpdate_ne (m : List (String × FileSystemItem)) (p : String)
    (hp : p ≠ "/Trash") : objGet (trashIconUpdate m) p = objGet m p := by
  unfold trashIconUpdate
  cases ht : objGet m "/Trash" with
  | none => rfl
  | some tr => simp [objGet_objSet_ne _ _ _ _ hp]

theorem keysOf_trashIconUpdate (m : List (String × FileSystemItem)) :
    keysOf (trashIconUpdate m) = keysOf m := by
  unfold trashIconUpdate
  cases ht : objGet m "/Trash" with
  | none => rfl
  | some tr => exact keysOf_objSet_mem _ _ _ (by rw [ht]; rfl)

theorem appInstance_eta (v : AppInstance) : { v with isForeground := v.isForeground } = v := rfl

theorem applyNextForeground_some (m : List (Nat × AppInstance)) (nf : Nat) :
    applyNextForeground m (some nf) =
      match objGet m nf with
      | some x => objSet m nf { x with isForeground := true }
      | none => m := rfl

theorem keysOf_applyNextForeground (m : List (Nat × AppInstance)) (onf : Option Nat) :
    keysOf (applyNextForeground m onf) = keysOf m := by
  cases onf with
  | none => rfl
  | some nf =>
    rw [applyNextForeground_some]
    cases hx : objGet m nf with
    | none => rfl
    | some x => exact keysOf_objSet_mem _ _ _ (by rw [hx]; rfl)

theorem objGet_applyNextForeground_ne (m : List (Nat × AppInstance)) (onf : Option Nat)
    (k : Nat) (h : onf ≠ some k) : objGet (applyNextForeground m onf) k = objGet m k := by
  cases onf with
  | none => rfl
  | some nf =>
    have hne : k ≠ nf := fun hc => h (by rw [hc])
    rw [applyNextForeground_some]
    cases hx : objGet m nf with
    | none => rfl
    | some x => exact objGet_objSet_ne _ _ _ _ hne

theorem objGet_applyNextForeground_self (m : List (Nat × AppInstance)) (nf : Nat)
    (x : AppInstance) (h : objGet m nf = some x) :
    objGet (applyNextForeground m (some nf)) nf = some { x with isForeground := true } := by
  rw [applyNextForeground_some, h]
  exact objGet_objSet_self _ _ _

theorem minimizeNextForeground_ne (m : List (Nat × AppInstance)) (order : List Nat)
    (iid nf : Nat) (h : minimizeNextForeground m order iid = some nf) : ¬nf = iid := by
  have := List.find?_some h
  intro hc
  simp [hc] at this

/-! ## Concrete fixtures used by the claim theorems and witnesses -/

/-- A desktop browser environment for `createAppInstance`. -/
def sampleEnv : Env :=
  { isMobile := false
    innerWidth := 1024
    defaultWidth := fun _ => 640
    defaultHeight := fun _ => 480
    now := 0 }

def emptyAppState : AppStoreState :=
  { instances := [], instanceOrder := [], foregroundInstanceId := none, nextInstanceId := 0 }

/-- `createAppInstance("finder")`, then two lazy `"textedit"` instances. -/
def threeWindowState : AppStoreState :=
  (createAppInstance sampleEnv
    (createAppInstance sampleEnv
      (createAppInstance sampleEnv emptyAppState "finder" none none).2
      "textedit" none none).2
    "textedit" none none).2

/-! ## The claims -/

/-- **C1** (code bug): *foreground exclusivity* — after any sequence of
instance operations at most one instance should have `isForeground = true`,
and it should be open and not minimized.  The code violates this: starting
from a foreground `finder` window (instance 1) and two background lazy
`textedit` windows (instances 2, 3) — `foregroundInstanceId = 1` — calling
`minimizeInstance 2` hands the foreground flag to instance 3 (the last
non-minimized id in `instanceOrder`) without clearing instance 1's stale
flag, leaving two instances with `isForeground = true`.  (The state-machine
intent is clear from every other operation clearing all flags and from
`foregroundInstanceId` being recomputed; `minimizeInstance` simply forgets
the old foreground.)  This theorem evaluates the code at the failing
input. -/
theorem C1_two_foreground_instances :
    ((minimizeInstance threeWindowState 2).instances.filter
        (fun kv => kv.2.isForeground)).map (·.1) = [1, 3] ∧
    (minimizeInstance threeWindowState 2).foregroundInstanceId = some 3 ∧
    threeWindowState.foregroundInstanceId = some 1 := by
  refine ⟨?_, ?_, ?_⟩ <;> rfl

/-- **C10** (confirmed): `minimizeInstance` on an open, non-minimized
instance leaves `instanceOrder` (and `nextInstanceId`, and the key set)
untouched; the target only gains `isMinimized := true` and loses
`isForeground`; every other instance is unchanged except possibly its
`isForeground` flag. -/
theorem C10_minimizeInstance_frame (s : AppStoreState) (iid : Nat) (inst : AppInstance)
    (hget : objGet s.instances iid = some inst)
    (_hopen : inst.isOpen = true) (hmin : inst.isMinimized = false) :
    (minimizeInstance s iid).instanceOrder = s.instanceOrder ∧
    (minimizeInstance s iid).nextInstanceId = s.nextInstanceId ∧
    keysOf (minimizeInstance s iid).instances = keysOf s.instances ∧
    objGet (minimizeInstance s iid).instances iid =
      some { inst with isMinimized := true, isForeground := false } ∧
    (∀ k v, k ≠ iid → objGet s.instances k = some v →
      ∃ b, objGet (minimizeInstance s iid).instances k = some { v with isForeground := b }) := by
  have hbody : minimizeInstance s iid =
      { s with
        instances := applyNextForeground
          (objSet s.instances iid { inst with isMinimized := true, isForeground := false })
          (minimizeNextForeground
            (objSet s.instances iid { inst with isMinimized := true, isForeground := false })
            s.instanceOrder iid)
        foregroundInstanceId := minimizeNextForeground
          (objSet s.instances iid { inst with isMinimized := true, isForeground := false })
          s.instanceOrder iid } := by
    unfold minimizeInstance
    rw [hget]
    simp [hmin]
  have hone : ∀ k,
      objGet (objSet s.instances iid { inst with isMinimized := true, isForeground := false }) k =
        (if k = iid then some { inst with isMinimized := true, isForeground := false }
          else objGet s.instances k) := by
    intro k
    by_cases hk : k = iid
    · rw [if_pos hk, hk]
      exact objGet_objSet_self _ _ _
    · rw [if_neg hk]
      exact objGet_objSet_ne _ _ _ _ hk
  have hnfne : minimizeNextForeground
      (objSet s.instances iid { inst with isMinimized := true, isForeground := false })
      s.instanceOrder iid ≠ some iid := by
    intro hc
    exact minimizeNextForeground_ne _ _ _ _ hc rfl
  refine ⟨by rw [hbody], by rw [hbody], ?_, ?_, ?_⟩
  · rw [hbody]
    exact (keysOf_applyNextForeground _ _).trans (keysOf_objSet_mem _ _ _ (by rw [hget]; rfl))
  · rw [hbody]
    show objGet (applyNextForeground _ _) iid = _
    rw [objGet_applyNextForeground_ne _ _ _ hnfne, hone iid, if_pos rfl]
  · intro k v hk hv
    rw [hbody]
    by_cases hknf : minimizeNextForeground
        (objSet s.instances iid { inst with isMinimized := true, isForeground := false })
        s.instanceOrder iid = some k
    · refine ⟨true, ?_⟩
      show objGet (applyNextForeground _ _) k = _
      rw [hknf]
      exact objGet_applyNextForeground_self _ _ _ (by rw [hone k, if_neg hk, hv])
    · refine ⟨v.isForeground, ?_⟩
      show objGet (applyNextForeground _ _) k = _
      rw [objGet_applyNextForeground_ne _ _ _ hknf, hone k, if_neg hk, hv, appInstance_eta]

/-- The second (background, lazy) textedit instance of the fixture. -/
def backgroundTextEdit : AppInstance :=
  { instanceId := 2, appId := "textedit", isOpen := true, isForeground := false,
    isLoading := true, isMinimized := false, posX := 48, posY := 60, width := 640,
    height := 480, createdAt := 0, initialData := none }

/-- Witness for C10 at a concrete input: minimizing the background textedit
instance 2 of the three-window fixture. -/
theorem C10_minimizeInstance_frame_witness :
    (minimizeInstance threeWindowState 2).instanceOrder = threeWindowState.instanceOrder ∧
    (minimizeInstance threeWindowState 2).nextInstanceId = threeWindowState.nextInstanceId ∧
    keysOf (minimizeInstance threeWindowState 2).instances = keysOf threeWindowState.instances ∧
    objGet (minimizeInstance threeWindowState 2).instances 2 =
      some { backgroundTextEdit with isMinimized := true, isForeground := false } ∧
    (∀ k v, k ≠ 2 → objGet threeWindowState.instances k = some v →
      ∃ b, objGet (minimizeInstance threeWindowState 2).instances k =
        some { v with isForeground := b }) :=
  C10_minimizeInstance_frame threeWindowState 2 backgroundTextEdit (by rfl) (by rfl) (by rfl)

theorem bringInstanceToForeground_some (s : AppStoreState) (iid : Nat) (x : AppInstance)
    (h : objGet s.instances iid = some x) :
    bringInstanceToForeground s (some iid) =
      { instances := objMapVals (fun k v => { v with isForeground := k == iid }) s.instances
        instanceOrder := s.instanceOrder.filter (fun i => !(i == iid)) ++ [iid]
        foregroundInstanceId := some iid
        nextInstanceId := s.nextInstanceId } := by
  have hred : bringInstanceToForeground s (some iid) =
      match objGet s.instances iid with
      | none => s
      | some _ =>
        { instances := objMapVals (fun k v => { v with isForeground := k == iid }) s.instances
          instanceOrder := s.instanceOrder.filter (fun i => !(i == iid)) ++ [iid]
          foregroundInstanceId := some iid
          nextInstanceId := s.nextInstanceId } := rfl
  rw [hred, h]

/-- **C9** (confirmed): `launchApp` hard-codes `"textedit"` and `"finder"`
as multi-window.  First half: for those two app ids, even with
`multiWindow = false`, when some non-minimized open instance of the app
exists, `launchApp` takes the `createAppInstance` path (a new instance).
Second half: for any other app id with `multiWindow` unset, it focuses the
existing open instance instead — the returned id is an instance already in
the store (of that app, open), no key is added, `nextInstanceId` does not
move, the instance becomes the foreground, and its `initialData` is
replaced when a (truthy) payload is provided. -/
theorem C9_launchApp_hardcoded_multiwindow :
    (∀ (env : Env) (s : AppStoreState) (appId : String) (d t : Option String),
      (appId = "textedit" ∨ appId = "finder") →
      (∃ kv ∈ s.instances, kv.2.appId = appId ∧ kv.2.isOpen = true ∧ kv.2.isMinimized = false) →
      launchApp env s appId d t false = createAppInstance env s appId d t) ∧
    (∀ (env : Env) (s : AppStoreState) (appId : String) (d t : Option String),
      appId ≠ "textedit" → appId ≠ "finder" →
      (keysOf s.instances).Nodup →
      (∀ kv ∈ s.instances, kv.2.instanceId = kv.1) →
      (∃ kv ∈ s.instances, kv.2.appId = appId ∧ kv.2.isOpen = true ∧ kv.2.isMinimized = false) →
      ∃ ex : AppInstance, (ex.instanceId, ex) ∈ s.instances ∧ ex.appId = appId ∧
        ex.isOpen = true ∧
        (launchApp env s appId d t false).1 = ex.instanceId ∧
        keysOf (launchApp env s appId d t false).2.instances = keysOf s.instances ∧
        (launchApp env s appId d t false).2.nextInstanceId = s.nextInstanceId ∧
        (launchApp env s appId d t false).2.foregroundInstanceId = some ex.instanceId ∧
        (truthyStr d = true →
          (objGet (launchApp env s appId d t false).2.instances ex.instanceId).map
            (·.initialData) = some d)) := by
  have hnotAll : ∀ (s : AppStoreState) (appId : String),
      (∃ kv ∈ s.instances, kv.2.appId = appId ∧ kv.2.isOpen = true ∧ kv.2.isMinimized = false) →
      (((s.instances.map (·.2)).filter
          (fun i => i.appId == appId && i.isOpen)).all (·.isMinimized)) = false := by
    intro s appId ⟨kv, hkvmem, happ, hopen, hmin⟩
    rw [Bool.eq_false_iff]
    intro hall
    have hmemf : kv.2 ∈ (s.instances.map (·.2)).filter (fun i => i.appId == appId && i.isOpen) := by
      rw [List.mem_filter]
      exact ⟨List.mem_map.mpr ⟨kv, hkvmem, rfl⟩, by simp [happ, hopen]⟩
    have := List.all_eq_true.mp hall _ hmemf
    rw [hmin] at this
    simp at this
  constructor
  · intro env s appId d t happ hex
    unfold launchApp
    simp only [hnotAll s appId hex, Bool.and_false, Bool.false_eq_true, if_false]
    unfold launchAppTail
    rcases happ with h | h <;> subst h <;> simp
  · intro env s appId d t hne1 hne2 hnd hcoh hex
    have hfindsome : (((s.instances.map (·.2)).find?
        (fun i => i.appId == appId && i.isOpen))).isSome := by
      rw [List.find?_isSome]
      obtain ⟨kv, hkvmem, happ, hopen, _⟩ := hex
      exact ⟨kv.2, List.mem_map.mpr ⟨kv, hkvmem, rfl⟩, by simp [happ, hopen]⟩
    obtain ⟨ex, hfind⟩ := Option.isSome_iff_exists.mp hfindsome
    have hprop := List.find?_some hfind
    have hmemv := List.mem_of_find?_eq_some hfind
    obtain ⟨kv', hkv'mem, hkv'⟩ := List.mem_map.mp hmemv
    have hexapp : ex.appId = appId := by
      have := hprop
      simp only [Bool.and_eq_true, beq_iff_eq] at this
      exact this.1
    have hexopen : ex.isOpen = true := by
      have := hprop
      simp only [Bool.and_eq_true, beq_iff_eq] at this
      exact this.2
    have hexmem : (ex.instanceId, ex) ∈ s.instances := by
      have h1 := hcoh kv' hkv'mem
      obtain ⟨k0, v0⟩ := kv'
      simp only at h1 hkv'
      subst hkv'
      rw [h1]
      exact hkv'mem
    have hobj : objGet s.instances ex.instanceId = some ex := objGet_eq_some_of_mem hnd hexmem
    refine ⟨ex, hexmem, hexapp, hexopen, ?_⟩
    have hlaunch : launchApp env s appId d t false =
        (ex.instanceId,
          if truthyStr d then
            refreshInitialData (bringInstanceToForeground s (some ex.instanceId)) ex.instanceId d
          else bringInstanceToForeground s (some ex.instanceId)) := by
      unfold launchApp
      simp only [hnotAll s appId hex, Bool.and_false, Bool.false_eq_true, if_false]
      unfold launchAppTail
      have hsupp : (false || appId == "textedit" || appId == "finder") = false := by
        simp [hne1, hne2]
      rw [hsupp]
      simp only [Bool.not_false, if_true]
      rw [hfind]
    have hbring := bringInstanceToForeground_some s ex.instanceId ex hobj
    have hbget : objGet (bringInstanceToForeground s (some ex.instanceId)).instances
        ex.instanceId = some { ex with isForeground := true } := by
      rw [hbring]
      dsimp only
      rw [objGet_objMapVals, hobj]
      simp
    by_cases htr : truthyStr d = true
    · have hrefresh : refreshInitialData (bringInstanceToForeground s (some ex.instanceId))
          ex.instanceId d =
          { bringInstanceToForeground s (some ex.instanceId) with
            instances := objSet (bringInstanceToForeground s (some ex.instanceId)).instances
              ex.instanceId { ex with isForeground := true, initialData := d } } := by
        unfold refreshInitialData
        rw [hbget]
      rw [hlaunch, if_pos htr]
      have hks : keysOf (objSet (bringInstanceToForeground s (some ex.instanceId)).instances
            ex.instanceId { ex with isForeground := true, initialData := d }) =
          keysOf (bringInstanceToForeground s (some ex.instanceId)).instances :=
        keysOf_objSet_mem _ _ _ (by rw [hbget]; rfl)
      refine ⟨rfl, ?_, ?_, ?_, fun _ => ?_⟩
      · dsimp only
        rw [hrefresh]
        dsimp only
        rw [hks, hbring]
        dsimp only
        exact keysOf_objMapVals _ _
      · dsimp only
        rw [hrefresh, hbring]
      · dsimp only
        rw [hrefresh, hbring]
      · dsimp only
        rw [hrefresh]
        dsimp only
        rw [objGet_objSet_self]
        rfl
    · rw [hlaunch, if_neg htr]
      refine ⟨rfl, ?_, ?_, ?_, fun hcontra => absurd hcontra htr⟩
      · dsimp only
        rw [hbring]
        dsimp only
        exact keysOf_objMapVals _ _
      · dsimp only
        rw [hbring]
      · dsimp only
        rw [hbring]

/-- A single open, non-minimized instance of the (single-window) app `"ipod"`. -/
def soloIpod : AppInstance :=
  { instanceId := 1, appId := "ipod", isOpen := true, isForeground := true,
    isLoading := false, isMinimized := false }

def soloIpodState : AppStoreState :=
  { instances := [(1, soloIpod)]
    instanceOrder := [1]
    foregroundInstanceId := some 1
    nextInstanceId := 1 }

/-- Witness for C9 at concrete inputs: a textedit launch with an open
non-minimized textedit window takes the `createAppInstance` path. -/
theorem C9_launchApp_hardcoded_multiwindow_witness :
    launchApp sampleEnv threeWindowState "textedit" none none false =
      createAppInstance sampleEnv threeWindowState "textedit" none none :=
  C9_launchApp_hardcoded_multiwindow.1 sampleEnv threeWindowState "textedit" none none
    (Or.inl rfl)
    ⟨(2, backgroundTextEdit), by decide, by decide, by decide, by decide⟩

/-! ## Master lookup lemmas for `removeItem` and `restoreItem` -/

/-- What `removeItem` leaves at a key it processes (the key itself, or —
for directories — a strict-descendant key). -/
theorem removeItem_lookup (s : FilesState) (d : String) (it : FileSystemItem)
    (permanent : Bool) (now : Nat) (p : String)
    (hnd : (keysOf s.items).Nodup)
    (hget : objGet s.items d = some it)
    (hp : p = d ∨ (it.isDirectory = true ∧ jsStartsWith p (d ++ "/") = true ∧ p ∈ keysOf s.items))
    (hptrash : p ≠ "/Trash") :
    objGet (removeItem s d permanent now).items p =
      removeItemEffect (permanent || (it.status == .trashed)) now p (objGet s.items p) := by
  unfold removeItem removeItemAux
  rw [hget]
  dsimp only
  rw [removeFold_fst, objGet_trashIconUpdate_ne _ _ hptrash]
  set L := d :: (if it.isDirectory then
    (keysOf s.items).filter (fun q => jsStartsWith q (d ++ "/")) else []) with hL
  have hdnotin : d ∉ (keysOf s.items).filter (fun q => jsStartsWith q (d ++ "/")) := by
    intro hmem
    have := (List.mem_filter.mp hmem).2
    rw [jsStartsWith_self_slash] at this
    simp at this
  have hndL : L.Nodup := by
    rw [hL]
    refine List.nodup_cons.mpr ⟨?_, ?_⟩
    · by_cases hdir : it.isDirectory = true
      · rw [if_pos hdir]
        exact hdnotin
      · rw [if_neg hdir]
        simp
    · by_cases hdir : it.isDirectory = true
      · rw [if_pos hdir]
        exact hnd.filter _
      · rw [if_neg hdir]
        exact List.nodup_nil
  have hmemL : p ∈ L := by
    rcases hp with h | ⟨hdir, hpre, hkey⟩
    · rw [h, hL]
      exact List.mem_cons_self _ _
    · rw [hL, if_pos hdir]
      exact List.mem_cons_of_mem _ (List.mem_filter.mpr ⟨hkey, hpre⟩)
  exact foldl_keystep_mem (removeItemMapStep (permanent || (it.status == .trashed)) now)
    (removeItemEffect (permanent || (it.status == .trashed)) now)
    (removeItemMapStep_self _ _) (removeItemMapStep_frame _ _) L s.items p hndL hmemL

/-- The key set is unchanged by a soft (non-permanent) `removeItem` of an
active item. -/
theorem keysOf_removeItem_soft (s : FilesState) (d : String) (it : FileSystemItem) (now : Nat)
    (hget : objGet s.items d = some it) (hactive : it.status = .active) :
    keysOf (removeItem s d false now).items = keysOf s.items := by
  unfold removeItem removeItemAux
  rw [hget]
  dsimp only
  rw [removeFold_fst, keysOf_trashIconUpdate]
  have hb : (false || (it.status == FStatus.trashed)) = false := by
    rw [hactive]
    rfl
  rw [hb]
  exact keysOf_foldl_invariant _ (keysOf_removeItemMapStep_soft now) _ _

/-- What `restoreItem` leaves at a key it may process. -/
theorem restoreItem_lookup (s : FilesState) (d : String) (it : FileSystemItem)
    (p : String) (c : FileSystemItem)
    (hnd : (keysOf s.items).Nodup)
    (hget : objGet s.items d = some it)
    (htr : it.status = .trashed)
    (hc : objGet s.items p = some c)
    (hp : p = d ∨ (it.isDirectory = true ∧ jsStartsWith p (d ++ "/") = true))
    (hptrash : p ≠ "/Trash") :
    objGet (restoreItem s d).items p = restoreItemEffect (objGet s.items p) := by
  unfold restoreItem
  rw [hget]
  dsimp only
  rw [htr]
  simp only [show (FStatus.trashed == FStatus.trashed) = true from rfl, Bool.not_true,
    Bool.false_eq_true, if_false]
  rw [objGet_trashIconUpdate_ne _ _ hptrash]
  set L := d :: (if it.isDirectory then
    (keysOf s.items).filter (fun q =>
      jsStartsWith q (d ++ "/") &&
        (match objGet s.items q with
          | some itm => itm.status == .trashed
          | none => false)) else []) with hL
  by_cases hmemL : p ∈ L
  · have hndL : L.Nodup := by
      rw [hL]
      refine List.nodup_cons.mpr ⟨?_, ?_⟩
      · by_cases hdir : it.isDirectory = true
        · rw [if_pos hdir]
          intro hmem
          have := (List.mem_filter.mp hmem).2
          rw [Bool.and_eq_true, jsStartsWith_self_slash] at this
          simp at this
        · rw [if_neg hdir]
          simp
      · by_cases hdir : it.isDirectory = true
        · rw [if_pos hdir]
          exact hnd.filter _
        · rw [if_neg hdir]
          exact List.nodup_nil
    exact foldl_keystep_mem restoreItemStep (fun _ => restoreItemEffect)
      (fun m q => restoreItemStep_self m q)
      (fun m q k hk => restoreItemStep_frame m q k hk) L s.items p hndL hmemL
  · rw [foldl_keystep_notmem restoreItemStep
      (fun m q k hk => restoreItemStep_frame m q k hk) L s.items p hmemL]
    rw [hc]
    have hpd : p ≠ d := by
      intro hc'
      exact hmemL (hc' ▸ (hL ▸ List.mem_cons_self _ _))
    rcases hp with h | ⟨hdir, hpre⟩
    · exact absurd h hpd
    · have hnottr : ¬c.status = .trashed := by
        intro hctr
        apply hmemL
        rw [hL, if_pos hdir]
        refine List.mem_cons_of_mem _ (List.mem_filter.mpr ⟨key_mem_of_objGet_eq_some hc, ?_⟩)
        rw [Bool.and_eq_true]
        refine ⟨hpre, ?_⟩
        rw [hc]
        show (c.status == FStatus.trashed) = true
        rw [hctr]
        decide
      have hbe : (c.status == FStatus.trashed) = false := by
        rw [Bool.eq_false_iff]
        intro hcc
        exact hnottr (by simpa using hcc)
      unfold restoreItemEffect
      dsimp only
      rw [hbe]
      simp

/-! ## Files fixtures -/

def desktopDirItem : FileSystemItem :=
  { path := "/Desktop", name := "Desktop", isDirectory := true,
    type := some "directory", status := .active }

def documentsDirItem : FileSystemItem :=
  { path := "/Documents", name := "Documents", isDirectory := true,
    type := some "directory", status := .active }

def docAItem : FileSystemItem :=
  { path := "/Documents/a.txt", name := "a.txt", isDirectory := false,
    uuid := some "uuid-a", size := some 5, createdAt := some 3, modifiedAt := some 4,
    status := .active }

def sampleFiles : FilesState :=
  { items := [("/Desktop", desktopDirItem), ("/Documents", documentsDirItem),
      ("/Documents/a.txt", docAItem)]
    libraryState := "loaded" }

/-- **C2 counterexample**: `removeItem` does not return the set of freed
content UUIDs.  The store action's TypeScript type is
`removeItem: (path, permanent?: boolean) => void`, and the loop's internal
`deletedContentPaths` accumulator — the only freed-content collection the
code computes, exposed here as the second component of `removeItemAux` —
records *paths*, not UUIDs, and is then discarded with the comment "We
don't return deletedContentPaths here, hook needs to manage content
separately".  Concretely, permanently removing `/Documents/a.txt` (uuid
`"uuid-a"`) computes `["/Documents/a.txt"]`, not `["uuid-a"]`. -/
theorem C2_removeItem_returns_nothing_counterexample :
    (removeItemAux sampleFiles "/Documents/a.txt" true 7).2 = ["/Documents/a.txt"] ∧
    docAItem.uuid = some "uuid-a" ∧
    (removeItemAux sampleFiles "/Documents/a.txt" true 7).2 ≠ ["uuid-a"] := by
  refine ⟨by decide, rfl, by decide⟩

/-- **C2 amended**: `removeItem(path, permanent)`: when `permanent` is true
or the item is already trashed it deletes the path — and, for a directory,
every strict-descendant path — from the items map, but it returns nothing
(the freed-content bookkeeping is internal, tracks paths, and is dropped;
`emptyTrash` is the operation that returns freed UUIDs); otherwise it flips
the status of the item and of every currently-active descendant to
`trashed`, stamping `originalPath` and `deletedAt` on them. -/
theorem C2_removeItem_amended :
    (∀ (s : FilesState) (d : String) (it : FileSystemItem) (permanent : Bool) (now : Nat),
      (keysOf s.items).Nodup → objGet s.items d = some it →
      (permanent = true ∨ it.status = .trashed) → d ≠ "/Trash" →
      objGet (removeItem s d permanent now).items d = none) ∧
    (∀ (s : FilesState) (d : String) (it : FileSystemItem) (permanent : Bool) (now : Nat)
        (p : String) (c : FileSystemItem),
      (keysOf s.items).Nodup → objGet s.items d = some it →
      (permanent = true ∨ it.status = .trashed) → it.isDirectory = true →
      jsStartsWith p (d ++ "/") = true → objGet s.items p = some c → p ≠ "/Trash" →
      objGet (removeItem s d permanent now).items p = none) ∧
    (∀ (s : FilesState) (d : String) (it : FileSystemItem) (now : Nat),
      (keysOf s.items).Nodup → objGet s.items d = some it →
      it.status = .active → d ≠ "/Trash" →
      objGet (removeItem s d false now).items d =
        some { it with status := .trashed, originalPath := some d, deletedAt := some now }) ∧
    (∀ (s : FilesState) (d : String) (it : FileSystemItem) (now : Nat)
        (p : String) (c : FileSystemItem),
      (keysOf s.items).Nodup → objGet s.items d = some it →
      it.status = .active → it.isDirectory = true →
      jsStartsWith p (d ++ "/") = true → objGet s.items p = some c → p ≠ "/Trash" →
      objGet (removeItem s d false now).items p =
        some (if c.status == FStatus.trashed then c
          else { c with status := .trashed, originalPath := some p, deletedAt := some now })) := by
  have hperm : ∀ (permanent : Bool) (it : FileSystemItem),
      (permanent = true ∨ it.status = .trashed) →
      (permanent || (it.status == FStatus.trashed)) = true := by
    intro permanent it h
    rcases h with h | h
    · rw [h]
      rfl
    · rw [h]
      simp
  refine ⟨?_, ?_, ?_, ?_⟩
  · intro s d it permanent now hnd hget hpm hdt
    rw [removeItem_lookup s d it permanent now d hnd hget (Or.inl rfl) hdt, hperm permanent it hpm,
      hget]
    rfl
  · intro s d it permanent now p c hnd hget hpm hdir hpre hc hpt
    rw [removeItem_lookup s d it permanent now p hnd hget
      (Or.inr ⟨hdir, hpre, key_mem_of_objGet_eq_some hc⟩) hpt, hperm permanent it hpm, hc]
    rfl
  · intro s d it now hnd hget hact hdt
    rw [removeItem_lookup s d it false now d hnd hget (Or.inl rfl) hdt, hget]
    simp [removeItemEffect, hact]
  · intro s d it now p c hnd hget hact hdir hpre hc hpt
    rw [removeItem_lookup s d it false now p hnd hget
      (Or.inr ⟨hdir, hpre, key_mem_of_objGet_eq_some hc⟩) hpt, hc]
    cases hcs : c.status with
    | active => simp [removeItemEffect, hact, hcs]
    | trashed => simp [removeItemEffect, hact, hcs]

/-- Witness for the amended C2 at a concrete input: soft-deleting the file
`/Documents/a.txt` stamps it as trashed. -/
theorem C2_removeItem_amended_witness :
    objGet (removeItem sampleFiles "/Documents/a.txt" false 7).items "/Documents/a.txt" =
      some
        { docAItem with
          status := .trashed
          originalPath := some "/Documents/a.txt"
          deletedAt := some 7 } :=
  C2_removeItem_amended.2.2.1 sampleFiles "/Documents/a.txt" docAItem 7
    (by decide) (by decide) (by decide) (by decide)

/-- **C4** (confirmed): the trash round trip.  For an active item that is
not the root and not the trash can, `restoreFromTrash` after `moveToTrash`
returns the item to `active` with `originalPath`/`deletedAt` cleared and
every other field — `path`, `name`, `uuid`, `type`, `size`, `isDirectory`,
and even `createdAt`/`modifiedAt` — unchanged. -/
theorem C4_trash_round_trip (s : FilesState) (p : String) (orig : FileSystemItem) (now : Nat)
    (hnd : (keysOf s.items).Nodup)
    (hget : objGet s.items p = some orig)
    (hpath : orig.path = p)
    (hactive : orig.status = .active)
    (hroot : p ≠ "/") (htrash : p ≠ "/Trash") (hnonempty : p ≠ "") :
    objGet (restoreFromTrash (moveToTrash s orig now) p).items p =
      some { orig with status := .active, originalPath := none, deletedAt := none } := by
  have hmtt : moveToTrash s orig now = removeItem s p false now := by
    unfold moveToTrash
    rw [hpath, hactive]
    simp [hroot, htrash]
  have hlook1 : objGet (removeItem s p false now).items p =
      some { orig with status := .trashed, originalPath := some p, deletedAt := some now } := by
    rw [removeItem_lookup s p orig false now p hnd hget (Or.inl rfl) htrash, hget]
    simp [removeItemEffect, hactive]
  have hkeys := keysOf_removeItem_soft s p orig now hget hactive
  have hnd' : (keysOf (removeItem s p false now).items).Nodup := by
    rw [hkeys]
    exact hnd
  rw [hmtt]
  unfold restoreFromTrash
  rw [hlook1]
  dsimp only
  have hcond : ((({ orig with
        status := FStatus.trashed
        originalPath := some p
        deletedAt := some now } : FileSystemItem).status == FStatus.trashed) &&
      truthyStr ({ orig with
        status := FStatus.trashed
        originalPath := some p
        deletedAt := some now } : FileSystemItem).originalPath) = true := by
    dsimp only
    rw [Bool.and_eq_true]
    refine ⟨rfl, ?_⟩
    unfold truthyStr
    simp [hnonempty]
  rw [hcond]
  simp only [if_true]
  rw [restoreItem_lookup (removeItem s p false now) p
    { orig with status := .trashed, originalPath := some p, deletedAt := some now } p
    { orig with status := .trashed, originalPath := some p, deletedAt := some now }
    hnd' hlook1 rfl hlook1 (Or.inl rfl) htrash, hlook1]
  rfl

theorem jsStartsWith_chars (s : String) (d : String) :
    jsStartsWith s ⟨d.data ++ ['/']⟩ = jsStartsWith s (d ++ "/") := by
  unfold jsStartsWith
  rw [slash_data]

/-- **C5** (confirmed): descendant consistency.  Trashing or restoring a
directory applies the same status change to every strict-descendant key
(`path + "/"` prefix match); renaming or moving a directory rewrites every
strict-descendant key by the same relative-suffix substitution and removes
the old key (no orphaned children).  The rename/move parts assume the two
directories are not nested in one another (renaming into one's own subtree
is the one degenerate call the store does not guard). -/
theorem C5_descendant_consistency :
    (∀ (s : FilesState) (d : String) (D : FileSystemItem) (now : Nat) (p : String)
        (c : FileSystemItem),
      (keysOf s.items).Nodup → objGet s.items d = some D →
      D.isDirectory = true → D.status = .active →
      jsStartsWith p (d ++ "/") = true → objGet s.items p = some c → p ≠ "/Trash" →
      objGet (removeItem s d false now).items p =
        some (if c.status == FStatus.trashed then c
          else { c with status := .trashed, originalPath := some p, deletedAt := some now })) ∧
    (∀ (s : FilesState) (d : String) (D : FileSystemItem) (p : String) (c : FileSystemItem),
      (keysOf s.items).Nodup → objGet s.items d = some D →
      D.isDirectory = true → D.status = .trashed →
      jsStartsWith p (d ++ "/") = true → objGet s.items p = some c → p ≠ "/Trash" →
      objGet (restoreItem s d).items p =
        some (if c.status == FStatus.trashed then
          { c with status := .active, originalPath := none, deletedAt := none } else c)) ∧
    (∀ (s : FilesState) (oldPath newPath newName : String) (D : FileSystemItem) (p : String)
        (c : FileSystemItem),
      (keysOf s.items).Nodup → objGet s.items oldPath = some D → D.status = .active →
      objGet s.items newPath = none → D.isDirectory = true →
      jsStartsWith newPath (oldPath ++ "/") = false →
      jsStartsWith oldPath (newPath ++ "/") = false →
      jsStartsWith p (oldPath ++ "/") = true → objGet s.items p = some c →
      objGet (renameItem s oldPath newPath newName).items
          (newPath ++ jsSubstringFrom p (strLen oldPath)) =
        some { c with
          path := newPath ++ jsSubstringFrom p (strLen oldPath)
          originalPath :=
            if c.status == FStatus.trashed then
              some (newPath ++ jsSubstringFrom p (strLen oldPath))
            else none } ∧
      objGet (renameItem s oldPath newPath newName).items p = none) ∧
    (∀ (s : FilesState) (src dst : String) (D par : FileSystemItem) (p : String)
        (c : FileSystemItem),
      (keysOf s.items).Nodup → objGet s.items src = some D → D.status = .active →
      objGet s.items (getParentPath dst) = some par → par.isDirectory = true →
      objGet s.items dst = none → D.isDirectory = true →
      jsStartsWith dst (src ++ "/") = false →
      jsStartsWith src (dst ++ "/") = false →
      jsStartsWith p (src ++ "/") = true → objGet s.items p = some c →
      objGet (moveItem s src dst).2.items (dst ++ jsSubstringFrom p (strLen src)) =
        some { c with path := dst ++ jsSubstringFrom p (strLen src) } ∧
      objGet (moveItem s src dst).2.items p = none) := by
  refine ⟨?_, ?_, ?_, ?_⟩
  · intro s d D now p c hnd hget hdir hact hpre hc hpt
    rw [removeItem_lookup s d D false now p hnd hget
      (Or.inr ⟨hdir, hpre, key_mem_of_objGet_eq_some hc⟩) hpt, hc]
    cases hcs : c.status with
    | active => simp [removeItemEffect, hact, hcs]
    | trashed => simp [removeItemEffect, hact, hcs]
  · intro s d D p c hnd hget hdir htr hpre hc hpt
    rw [restoreItem_lookup s d D p c hnd hget htr hc (Or.inr ⟨hdir, hpre⟩) hpt, hc]
    cases hcs : c.status with
    | active => simp [restoreItemEffect, hcs]
    | trashed => simp [restoreItemEffect, hcs]
  · intro s oldPath newPath newName D p c hnd hold hact hfree hdir h1 h2 hp hc
    have hnestr : oldPath ≠ newPath := by
      intro hcontra
      rw [hcontra] at hold
      exact Option.noConfusion (hold.symm.trans hfree)
    have hnedata : oldPath.data ≠ newPath.data := fun hd => hnestr (string_eq_of_data_eq hd)
    obtain ⟨rp, hpdata⟩ := descendant_structure hp
    have htkp : (newPath ++ jsSubstringFrom p (strLen oldPath)).data =
        newPath.data ++ '/' :: rp := tk_data hpdata
    have h1' : jsStartsWith newPath ⟨oldPath.data ++ ['/']⟩ = false := by
      rw [jsStartsWith_chars]
      exact h1
    have h2' : jsStartsWith oldPath ⟨newPath.data ++ ['/']⟩ = false := by
      rw [jsStartsWith_chars]
      exact h2
    have hbody : (renameItem s oldPath newPath newName).items =
        List.foldl
          (rewriteStep (fun q => jsStartsWith q (oldPath ++ "/"))
            (fun q => newPath ++ jsSubstringFrom q (strLen oldPath))
            (fun q c0 =>
              { c0 with
                path := newPath ++ jsSubstringFrom q (strLen oldPath)
                originalPath :=
                  if c0.status == FStatus.trashed then
                    some (newPath ++ jsSubstringFrom q (strLen oldPath))
                  else none }))
          (objSet (objDel s.items oldPath) newPath { D with path := newPath, name := newName })
          s.items := by
      unfold renameItem
      rw [hold]
      dsimp only
      rw [hact, hfree, hdir]
      simp [rewriteStep]
    have hkey : ∀ q ∈ keysOf s.items, jsStartsWith q (oldPath ++ "/") = true → q ≠ p →
        q ≠ newPath ++ jsSubstringFrom p (strLen oldPath) := by
      intro q _ hqpred _ hcontra
      obtain ⟨rq, hqdata⟩ := descendant_structure hqpred
      have hdd : oldPath.data ++ '/' :: rq = newPath.data ++ '/' :: rp := by
        rw [← hqdata, hcontra, htkp]
      exact append_slash_ne oldPath newPath h1' h2' hnedata rq rp hdd
    have htkinj : ∀ q ∈ keysOf s.items, jsStartsWith q (oldPath ++ "/") = true → q ≠ p →
        newPath ++ jsSubstringFrom q (strLen oldPath) ≠
          newPath ++ jsSubstringFrom p (strLen oldPath) := by
      intro q _ hqpred hqne hcontra
      obtain ⟨rq, hqdata⟩ := descendant_structure hqpred
      have htkq : (newPath ++ jsSubstringFrom q (strLen oldPath)).data =
          newPath.data ++ '/' :: rq := tk_data hqdata
      have hdd : newPath.data ++ '/' :: rq = newPath.data ++ '/' :: rp := by
        rw [← htkq, hcontra, htkp]
      have hrq : rq = rp := by
        have := List.append_cancel_left hdd
        simpa using this
      exact hqne (string_eq_of_data_eq (by rw [hqdata, hpdata, hrq]))
    have htkp_ne : newPath ++ jsSubstringFrom p (strLen oldPath) ≠ p := by
      intro hcontra
      have hdd : newPath.data ++ '/' :: rp = oldPath.data ++ '/' :: rp := by
        rw [← htkp, hcontra, hpdata]
      exact append_slash_ne newPath oldPath h2' h1' (Ne.symm hnedata) rp rp hdd
    have htkne : ∀ q ∈ keysOf s.items, jsStartsWith q (oldPath ++ "/") = true →
        newPath ++ jsSubstringFrom q (strLen oldPath) ≠ p := by
      intro q _ hqpred hcontra
      obtain ⟨rq, hqdata⟩ := descendant_structure hqpred
      have htkq : (newPath ++ jsSubstringFrom q (strLen oldPath)).data =
          newPath.data ++ '/' :: rq := tk_data hqdata
      have hdd : newPath.data ++ '/' :: rq = oldPath.data ++ '/' :: rp := by
        rw [← htkq, hcontra, hpdata]
      exact append_slash_ne newPath oldPath h2' h1' (Ne.symm hnedata) rq rp hdd
    rw [hbody]
    constructor
    · exact foldl_rewrite_target _ _ _ s.items _ p c hnd (mem_of_objGet_eq_some hc) hp
        hkey htkinj
    · exact foldl_rewrite_delold _ _ _ s.items _ p c hnd (mem_of_objGet_eq_some hc) hp
        htkp_ne htkne
  · intro s src dst D par p c hnd hsrc hact hpar hpardir hfree hdir hguard hns hp hc
    have hnestr : src ≠ dst := by
      intro hcontra
      rw [hcontra] at hsrc
      exact Option.noConfusion (hsrc.symm.trans hfree)
    have hnedata : src.data ≠ dst.data := fun hd => hnestr (string_eq_of_data_eq hd)
    obtain ⟨rp, hpdata⟩ := descendant_structure hp
    have htkp : (dst ++ jsSubstringFrom p (strLen src)).data = dst.data ++ '/' :: rp :=
      tk_data hpdata
    have h1' : jsStartsWith dst ⟨src.data ++ ['/']⟩ = false := by
      rw [jsStartsWith_chars]
      exact hguard
    have h2' : jsStartsWith src ⟨dst.data ++ ['/']⟩ = false := by
      rw [jsStartsWith_chars]
      exact hns
    have hbody : (moveItem s src dst).2.items =
        List.foldl
          (rewriteStep (fun q => jsStartsWith q (src ++ "/"))
            (fun q => dst ++ jsSubstringFrom q (strLen src))
            (fun q c0 => { c0 with path := dst ++ jsSubstringFrom q (strLen src) }))
          (objSet (objDel s.items src) dst { D with path := dst })
          s.items := by
      unfold moveItem
      rw [hsrc]
      dsimp only
      rw [hact, hpar]
      dsimp only
      rw [hpardir, hfree, hguard, hdir]
      simp [rewriteStep]
    have hkey : ∀ q ∈ keysOf s.items, jsStartsWith q (src ++ "/") = true → q ≠ p →
        q ≠ dst ++ jsSubstringFrom p (strLen src) := by
      intro q _ hqpred _ hcontra
      obtain ⟨rq, hqdata⟩ := descendant_structure hqpred
      have hdd : src.data ++ '/' :: rq = dst.data ++ '/' :: rp := by
        rw [← hqdata, hcontra, htkp]
      exact append_slash_ne src dst h1' h2' hnedata rq rp hdd
    have htkinj : ∀ q ∈ keysOf s.items, jsStartsWith q (src ++ "/") = true → q ≠ p →
        dst ++ jsSubstringFrom q (strLen src) ≠ dst ++ jsSubstringFrom p (strLen src) := by
      intro q _ hqpred hqne hcontra
      obtain ⟨rq, hqdata⟩ := descendant_structure hqpred
      have htkq : (dst ++ jsSubstringFrom q (strLen src)).data = dst.data ++ '/' :: rq :=
        tk_data hqdata
      have hdd : dst.data ++ '/' :: rq = dst.data ++ '/' :: rp := by
        rw [← htkq, hcontra, htkp]
      have hrq : rq = rp := by
        have := List.append_cancel_left hdd
        simpa using this
      exact hqne (string_eq_of_data_eq (by rw [hqdata, hpdata, hrq]))
    have htkp_ne : dst ++ jsSubstringFrom p (strLen src) ≠ p := by
      intro hcontra
      have hdd : dst.data ++ '/' :: rp = src.data ++ '/' :: rp := by
        rw [← htkp, hcontra, hpdata]
      exact append_slash_ne dst src h2' h1' (Ne.symm hnedata) rp rp hdd
    have htkne : ∀ q ∈ keysOf s.items, jsStartsWith q (src ++ "/") = true →
        dst ++ jsSubstringFrom q (strLen src) ≠ p := by
      intro q _ hqpred hcontra
      obtain ⟨rq, hqdata⟩ := descendant_structure hqpred
      have htkq : (dst ++ jsSubstringFrom q (strLen src)).data = dst.data ++ '/' :: rq :=
        tk_data hqdata
      have hdd : dst.data ++ '/' :: rq = src.data ++ '/' :: rp := by
        rw [← htkq, hcontra, hpdata]
      exact append_slash_ne dst src h2' h1' (Ne.symm hnedata) rq rp hdd
    rw [hbody]
    constructor
    · exact foldl_rewrite_target _ _ _ s.items _ p c hnd (mem_of_objGet_eq_some hc) hp
        hkey htkinj
    · exact foldl_rewrite_delold _ _ _ s.items _ p c hnd (mem_of_objGet_eq_some hc) hp
        htkp_ne htkne

/-- A directory with one file, used to witness the descendant rewrites. -/
def subDirItem : FileSystemItem :=
  { path := "/Documents/Sub", name := "Sub", isDirectory := true,
    type := some "directory", status := .active }

def subFileItem : FileSystemItem :=
  { path := "/Documents/Sub/b.txt", name := "b.txt", isDirectory := false,
    uuid := some "uuid-b", status := .active }

def nestedFiles : FilesState :=
  { items := [("/Desktop", desktopDirItem), ("/Documents", documentsDirItem),
      ("/Documents/Sub", subDirItem), ("/Documents/Sub/b.txt", subFileItem)]
    libraryState := "loaded" }

/-- Witness for C5 at a concrete input: renaming `/Documents/Sub` to
`/Documents/Sub2` rewrites the child `/Documents/Sub/b.txt` to
`/Documents/Sub2/b.txt` and leaves no item at the old child key. -/
theorem C5_descendant_consistency_witness :
    objGet (renameItem nestedFiles "/Documents/Sub" "/Documents/Sub2" "Sub2").items
        ("/Documents/Sub2" ++ jsSubstringFrom "/Documents/Sub/b.txt" (strLen "/Documents/Sub")) =
      some { subFileItem with
        path := "/Documents/Sub2" ++
          jsSubstringFrom "/Documents/Sub/b.txt" (strLen "/Documents/Sub")
        originalPath :=
          if subFileItem.status == FStatus.trashed then
            some ("/Documents/Sub2" ++
              jsSubstringFrom "/Documents/Sub/b.txt" (strLen "/Documents/Sub"))
          else none } ∧
    objGet (renameItem nestedFiles "/Documents/Sub" "/Documents/Sub2" "Sub2").items
        "/Documents/Sub/b.txt" = none :=
  C5_descendant_consistency.2.2.1 nestedFiles "/Documents/Sub" "/Documents/Sub2" "Sub2"
    subDirItem "/Documents/Sub/b.txt" subFileItem
    (by decide) (by decide) (by decide) (by decide) (by decide) (by decide) (by decide)
    (by decide) (by decide)

/-- Shape of `moveItem` when every validation passes. -/
theorem moveItem_success (s : FilesState) (src dst : String) (it par : FileSystemItem)
    (hsrc : objGet s.items src = some it) (hact : it.status = .active)
    (hpar : objGet s.items (getParentPath dst) = some par) (hpardir : par.isDirectory = true)
    (hfree : objGet s.items dst = none)
    (hg : (it.isDirectory && jsStartsWith dst (src ++ "/")) = false) :
    (moveItem s src dst).1 = true ∧
    (moveItem s src dst).2.items =
      (if it.isDirectory = true then
        List.foldl
          (rewriteStep (fun q => jsStartsWith q (src ++ "/"))
            (fun q => dst ++ jsSubstringFrom q (strLen src))
            (fun q c0 => { c0 with path := dst ++ jsSubstringFrom q (strLen src) }))
          (objSet (objDel s.items src) dst { it with path := dst })
          s.items
      else objSet (objDel s.items src) dst { it with path := dst }) := by
  unfold moveItem
  rw [hsrc]
  dsimp only
  rw [hact, hpar]
  dsimp only
  rw [hpardir, hfree, hg]
  simp [rewriteStep]

/-- **C6** (confirmed): `moveItem` returns a boolean; on every validation
failure — missing or inactive source, missing or non-directory destination
parent, occupied destination, or moving a directory into its own subtree —
it returns `false` with the state untouched (no exception is modelled: the
embedding is total), and otherwise it performs the move and returns
`true`. -/
theorem C6_moveItem_error_handling :
    (∀ (s : FilesState) (src dst : String),
      objGet s.items src = none → moveItem s src dst = (false, s)) ∧
    (∀ (s : FilesState) (src dst : String) (it : FileSystemItem),
      objGet s.items src = some it → it.status ≠ .active → moveItem s src dst = (false, s)) ∧
    (∀ (s : FilesState) (src dst : String) (it : FileSystemItem),
      objGet s.items src = some it → it.status = .active →
      objGet s.items (getParentPath dst) = none → moveItem s src dst = (false, s)) ∧
    (∀ (s : FilesState) (src dst : String) (it par : FileSystemItem),
      objGet s.items src = some it → it.status = .active →
      objGet s.items (getParentPath dst) = some par → par.isDirectory = false →
      moveItem s src dst = (false, s)) ∧
    (∀ (s : FilesState) (src dst : String) (it par occ : FileSystemItem),
      objGet s.items src = some it → it.status = .active →
      objGet s.items (getParentPath dst) = some par → par.isDirectory = true →
      objGet s.items dst = some occ → moveItem s src dst = (false, s)) ∧
    (∀ (s : FilesState) (src dst : String) (it par : FileSystemItem),
      objGet s.items src = some it → it.status = .active →
      objGet s.items (getParentPath dst) = some par → par.isDirectory = true →
      objGet s.items dst = none → it.isDirectory = true →
      jsStartsWith dst (src ++ "/") = true → moveItem s src dst = (false, s)) ∧
    (∀ (s : FilesState) (src dst : String) (it par : FileSystemItem),
      (keysOf s.items).Nodup →
      objGet s.items src = some it → it.status = .active →
      objGet s.items (getParentPath dst) = some par → par.isDirectory = true →
      objGet s.items dst = none →
      jsStartsWith dst (src ++ "/") = false →
      (it.isDirectory = true → jsStartsWith src (dst ++ "/") = false) →
      (moveItem s src dst).1 = true ∧
      objGet (moveItem s src dst).2.items dst = some { it with path := dst } ∧
      objGet (moveItem s src dst).2.items src = none) := by
  refine ⟨?_, ?_, ?_, ?_, ?_, ?_, ?_⟩
  · intro s src dst hsrc
    unfold moveItem
    rw [hsrc]
  · intro s src dst it hsrc hact
    have hb : (it.status == FStatus.active) = false := by
      rw [Bool.eq_false_iff]
      intro hcc
      exact hact (by simpa using hcc)
    unfold moveItem
    rw [hsrc]
    dsimp only
    rw [hb]
    rfl
  · intro s src dst it hsrc hact hpar
    unfold moveItem
    rw [hsrc]
    dsimp only
    rw [hact, hpar]
    rfl
  · intro s src dst it par hsrc hact hpar hpardir
    unfold moveItem
    rw [hsrc]
    dsimp only
    rw [hact, hpar]
    dsimp only
    rw [hpardir]
    rfl
  · intro s src dst it par occ hsrc hact hpar hpardir hocc
    unfold moveItem
    rw [hsrc]
    dsimp only
    rw [hact, hpar]
    dsimp only
    rw [hpardir, hocc]
    rfl
  · intro s src dst it par hsrc hact hpar hpardir hfree hdir hsub
    unfold moveItem
    rw [hsrc]
    dsimp only
    rw [hact, hpar]
    dsimp only
    rw [hpardir, hfree, hdir, hsub]
    rfl
  · intro s src dst it par hnd hsrc hact hpar hpardir hfree hguard hns
    have hg : (it.isDirectory && jsStartsWith dst (src ++ "/")) = false := by
      rw [hguard, Bool.and_false]
    obtain ⟨hflag, hitems⟩ := moveItem_success s src dst it par hsrc hact hpar hpardir hfree hg
    have hsd : src ≠ dst := by
      intro hcontra
      rw [hcontra] at hsrc
      exact Option.noConfusion (hsrc.symm.trans hfree)
    have hm2dst : objGet (objSet (objDel s.items src) dst { it with path := dst }) dst =
        some { it with path := dst } := objGet_objSet_self _ _ _
    have hm2src : objGet (objSet (objDel s.items src) dst { it with path := dst }) src =
        objGet (objDel s.items src) src := objGet_objSet_ne _ _ _ _ hsd
    refine ⟨hflag, ?_, ?_⟩
    · rw [hitems]
      by_cases hdir : it.isDirectory = true
      · rw [if_pos hdir]
        rw [foldl_rewrite_frame _ _ _ s.items _ dst ?_]
        · exact hm2dst
        · intro kv hkvmem hkvpred
          obtain ⟨rq, hqdata⟩ := descendant_structure hkvpred
          constructor
          · intro hcontra
            rw [hcontra] at hqdata
            have : jsStartsWith dst (src ++ "/") = true := by
              rw [jsStartsWith_slash_eq, List.isPrefixOf_eq_true_iff]
              exact ⟨rq, by simpa using hqdata⟩
            rw [hguard] at this
            exact Bool.noConfusion this
          · exact ne_of_data_append_cons (@tk_data dst src kv.1 rq hqdata)
      · rw [if_neg hdir]
        exact hm2dst
    · rw [hitems]
      by_cases hdir : it.isDirectory = true
      · rw [if_pos hdir]
        rw [foldl_rewrite_frame _ _ _ s.items _ src ?_]
        · rw [hm2src]
          exact objGet_objDel_self _ _
        · intro kv hkvmem hkvpred
          obtain ⟨rq, hqdata⟩ := descendant_structure hkvpred
          constructor
          · exact ne_of_data_append_cons hqdata
          · intro hcontra
            have : jsStartsWith src (dst ++ "/") = true := by
              rw [jsStartsWith_slash_eq, List.isPrefixOf_eq_true_iff]
              refine ⟨rq, ?_⟩
              rw [← hcontra]
              simpa using @tk_data dst src kv.1 rq hqdata
            rw [hns hdir] at this
            exact Bool.noConfusion this
      · rw [if_neg hdir]
        rw [hm2src]
        exact objGet_objDel_self _ _

/-- Witness for C6 at concrete inputs: moving `/Documents/a.txt` onto the
occupied path `/Documents/a.txt` fails, and moving it to `/Desktop/a.txt`
succeeds. -/
theorem C6_moveItem_error_handling_witness :
    moveItem sampleFiles "/Documents/a.txt" "/Documents/a.txt" = (false, sampleFiles) ∧
    ((moveItem sampleFiles "/Documents/a.txt" "/Desktop/a.txt").1 = true ∧
      objGet (moveItem sampleFiles "/Documents/a.txt" "/Desktop/a.txt").2.items
          "/Desktop/a.txt" = some { docAItem with path := "/Desktop/a.txt" } ∧
      objGet (moveItem sampleFiles "/Documents/a.txt" "/Desktop/a.txt").2.items
          "/Documents/a.txt" = none) :=
  ⟨C6_moveItem_error_handling.2.2.2.2.1 sampleFiles "/Documents/a.txt" "/Documents/a.txt"
      docAItem documentsDirItem docAItem (by decide) (by decide) (by decide) (by decide)
      (by decide),
    C6_moveItem_error_handling.2.2.2.2.2.2 sampleFiles "/Documents/a.txt" "/Desktop/a.txt"
      docAItem desktopDirItem (by decide) (by decide) (by decide) (by decide) (by decide)
      (by decide) (by decide) (fun h => by exact absurd h (by decide))⟩

/-- **C7** (confirmed): `addItem`.  (i) With an invalid parent — the parent
path is not the (virtual, always-present) root `/` and is missing, not a
directory, or trashed — the call is a silent no-op returning the state
unchanged.  (ii) With a valid parent and an item already at the path, it
merges: the result is the spread-merge that keeps the existing (truthy)
`uuid` and `createdAt`, bumps `modifiedAt` to `now` when the caller passes
none, and stays `active`.  (iii) With a valid parent and a fresh path, it
inserts the new item with status `active`. -/
theorem C7_addItem_insert_merge_noop :
    (∀ (s : FilesState) (d : NewItemData) (now : Nat) (freshUuid : String),
      addItemParentInvalid s (getParentPath d.path) = true →
      addItem s d now freshUuid = s) ∧
    (∀ (s : FilesState) (d : NewItemData) (now : Nat) (freshUuid : String)
        (ex : FileSystemItem),
      addItemParentInvalid s (getParentPath d.path) = false →
      objGet s.items d.path = some ex →
      objGet (addItem s d now freshUuid).items d.path =
        some (mergeItems ex (mkNewItem d now freshUuid) now) ∧
      (mergeItems ex (mkNewItem d now freshUuid) now).status = .active ∧
      (∀ u, ex.uuid = some u → u ≠ "" →
        (mergeItems ex (mkNewItem d now freshUuid) now).uuid = some u) ∧
      (∀ cAt, ex.createdAt = some cAt → cAt ≠ 0 →
        (mergeItems ex (mkNewItem d now freshUuid) now).createdAt = some cAt) ∧
      (d.modifiedAt = none →
        (mergeItems ex (mkNewItem d now freshUuid) now).modifiedAt = some now)) ∧
    (∀ (s : FilesState) (d : NewItemData) (now : Nat) (freshUuid : String),
      addItemParentInvalid s (getParentPath d.path) = false →
      objGet s.items d.path = none →
      objGet (addItem s d now freshUuid).items d.path = some (mkNewItem d now freshUuid) ∧
      (mkNewItem d now freshUuid).status = .active) := by
  refine ⟨?_, ?_, ?_⟩
  · intro s d now freshUuid hbad
    have hbad' : addItemParentInvalid s (getParentPath (mkNewItem d now freshUuid).path) =
        true := hbad
    simp only [addItem]
    rw [hbad']
    simp
  · intro s d now freshUuid ex hok hex
    have hok' : addItemParentInvalid s (getParentPath (mkNewItem d now freshUuid).path) =
        false := hok
    have hex' : objGet s.items (mkNewItem d now freshUuid).path = some ex := hex
    refine ⟨?_, rfl, ?_, ?_, ?_⟩
    · simp only [addItem]
      rw [hok']
      simp only [Bool.false_eq_true, if_false]
      rw [hex']
      dsimp only
      exact objGet_objSet_self _ _ _
    · intro u hu hune
      show strOr ex.uuid (mkNewItem d now freshUuid).uuid = some u
      rw [hu]
      unfold strOr
      simp [hune]
    · intro cAt hca hcane
      show natOr ex.createdAt (mkNewItem d now freshUuid).createdAt = some cAt
      rw [hca]
      unfold natOr
      simp [hcane]
    · intro hdm
      show natOr (mkNewItem d now freshUuid).modifiedAt (some now) = some now
      have hmo : (mkNewItem d now freshUuid).modifiedAt = natOr d.modifiedAt (some now) := rfl
      rw [hmo, hdm]
      unfold natOr
      by_cases hz : now = 0
      · simp [hz]
      · simp [hz]
  · intro s d now freshUuid hok hnone
    have hok' : addItemParentInvalid s (getParentPath (mkNewItem d now freshUuid).path) =
        false := hok
    have hnone' : objGet s.items (mkNewItem d now freshUuid).path = none := hnone
    refine ⟨?_, rfl⟩
    simp only [addItem]
    rw [hok']
    simp only [Bool.false_eq_true, if_false]
    rw [hnone']
    dsimp only
    by_cases hpt : getParentPath d.path = "/Trash"
    · have hdp : d.path ≠ "/Trash" := by
        intro hcontra
        rw [hcontra] at hpt
        have : getParentPath "/Trash" = "/" := by decide
        rw [this] at hpt
        exact absurd hpt (by decide)
      split
      · split
        · rw [objGet_objSet_ne _ _ _ _ hdp]
          exact objGet_objSet_self _ _ _
        · exact objGet_objSet_self _ _ _
      · exact objGet_objSet_self _ _ _
    · split
      · rename_i hcond
        rw [Bool.and_eq_true] at hcond
        have := hcond.1
        rw [beq_iff_eq] at this
        exact absurd this hpt
      · exact objGet_objSet_self _ _ _

/-- Witness for C7 at a concrete input: inserting a fresh file under
`/Documents`. -/
theorem C7_addItem_insert_merge_noop_witness :
    objGet (addItem sampleFiles
        { path := "/Documents/n.txt", name := "n.txt", isDirectory := false } 9 "u-n").items
        "/Documents/n.txt" =
      some (mkNewItem { path := "/Documents/n.txt", name := "n.txt", isDirectory := false }
        9 "u-n") ∧
    (mkNewItem { path := "/Documents/n.txt", name := "n.txt", isDirectory := false }
      9 "u-n").status = .active :=
  C7_addItem_insert_merge_noop.2.2 sampleFiles
    { path := "/Documents/n.txt", name := "n.txt", isDirectory := false } 9 "u-n"
    (by decide) (by decide)

/-- A trashed alias sitting at the preferred desktop path, used to exercise
the reclaim branch of `createAlias`. -/
def trashedDeskA : FileSystemItem :=
  { path := "/Desktop/a.txt", name := "a.txt", isDirectory := false,
    status := .trashed, originalPath := some "/Desktop/a.txt", deletedAt := some 5,
    aliasTarget := some "/Documents/a.txt", aliasKind := some .file }

def trashedAliasFiles : FilesState :=
  { items := [("/Desktop", desktopDirItem), ("/Documents", documentsDirItem),
      ("/Documents/a.txt", docAItem), ("/Desktop/a.txt", trashedDeskA)]
    libraryState := "loaded" }

/-- **C3 counterexample**: the de-duplication counter starts at 1, not 2.
Calling `createAlias("/Documents/a.txt", "a.txt", "file")` twice yields
`/Desktop/a.txt` and then `/Desktop/a 1.txt`; the path `/Desktop/a 2.txt`
the claim promises for the second call is never created. -/
theorem C3_alias_suffix_counterexample :
    (objGet (createAlias sampleFiles "/Documents/a.txt" "a.txt" .file none 7).items
      "/Desktop/a.txt").isSome = true ∧
    objGet (createAlias (createAlias sampleFiles "/Documents/a.txt" "a.txt" .file none 7)
        "/Documents/a.txt" "a.txt" .file none 8).items "/Desktop/a 2.txt" = none ∧
    (objGet (createAlias (createAlias sampleFiles "/Documents/a.txt" "a.txt" .file none 7)
        "/Documents/a.txt" "a.txt" .file none 8).items "/Desktop/a 1.txt").isSome = true := by
  refine ⟨rfl, rfl, rfl⟩

/-- **C3** (amended): `createAlias` creates a new active alias under
`/Desktop`, de-duplicating against *active* items only by appending the
numbered suffixes " 1", " 2", … before the extension (the counter starts at
1, so two calls with the same name yield `/Desktop/a.txt` then
`/Desktop/a 1.txt`); a trashed item at the preferred path is silently
reclaimed/overwritten instead of blocking the name.  Parts: (i) a candidate
not occupied by an active item is kept as-is; (ii) when the preferred path
is active and the next numbered candidate is free, the loop picks the
numbered candidate; (iii) the first numbered candidate for `a.txt` is
`/Desktop/a 1.txt`, the second-call scenario lands there with a fresh
active alias, and a trashed item at `/Desktop/a.txt` is reclaimed by an
active alias at that very path. -/
theorem C3_alias_dedup_amended :
    (∀ (m : List (String × FileSystemItem)) (name cand : String) (counter fuel : Nat),
      isActiveAtPath m cand = false →
      aliasPathLoop m name cand counter fuel = cand) ∧
    (∀ (m : List (String × FileSystemItem)) (name cand : String) (counter fuel : Nat),
      isActiveAtPath m cand = true →
      isActiveAtPath m (mkAliasCandidate name counter) = false →
      aliasPathLoop m name cand counter (fuel + 2) = mkAliasCandidate name counter) ∧
    mkAliasCandidate "a.txt" 1 = "/Desktop/a 1.txt" ∧
    (let s2 := createAlias (createAlias sampleFiles "/Documents/a.txt" "a.txt" .file none 7)
        "/Documents/a.txt" "a.txt" .file none 8
     ∃ a, objGet s2.items "/Desktop/a 1.txt" = some a ∧ a.status = .active ∧
       a.aliasTarget = some "/Documents/a.txt" ∧ a.aliasKind = some .file) ∧
    (∃ a, objGet (createAlias trashedAliasFiles "/Documents/a.txt" "a.txt" .file none 9).items
        "/Desktop/a.txt" = some a ∧ a.status = .active ∧
       a.aliasTarget = some "/Documents/a.txt" ∧ a.createdAt = some 9) := by
  refine ⟨?_, ?_, rfl, ?_, ?_⟩
  · intro m name cand counter fuel h
    cases fuel with
    | zero => rfl
    | succ n =>
      unfold aliasPathLoop
      rw [h]
      simp
  · intro m name cand counter fuel h1 h2
    show aliasPathLoop m name cand counter (fuel + 1 + 1) = _
    unfold aliasPathLoop
    rw [h1]
    simp only [if_true]
    cases fuel with
    | zero => unfold aliasPathLoop; rw [h2]; simp
    | succ n =>
      unfold aliasPathLoop
      rw [h2]
      simp
  · exact ⟨_, rfl, rfl, rfl, rfl⟩
  · exact ⟨_, rfl, rfl, rfl, rfl⟩

/-- Witness for C3's amended theorem at concrete inputs: part (i) keeps a
free candidate, part (ii) advances once to the first numbered suffix. -/
theorem C3_alias_dedup_amended_witness :
    (isActiveAtPath sampleFiles.items "/Desktop/b.txt" = false ∧
      aliasPathLoop sampleFiles.items "b.txt" "/Desktop/b.txt" 1 4 = "/Desktop/b.txt") ∧
    (isActiveAtPath trashedAliasFiles.items "/Documents/a.txt" = true ∧
      isActiveAtPath trashedAliasFiles.items (mkAliasCandidate "a.txt" 1) = false ∧
      aliasPathLoop trashedAliasFiles.items "a.txt" "/Documents/a.txt" 1 5 =
        mkAliasCandidate "a.txt" 1) :=
  ⟨⟨by decide,
    C3_alias_dedup_amended.1 sampleFiles.items "b.txt" "/Desktop/b.txt" 1 4 (by decide)⟩,
   ⟨by decide, by decide,
    C3_alias_dedup_amended.2.1 trashedAliasFiles.items "a.txt" "/Documents/a.txt" 1 3
      (by decide) (by decide)⟩⟩

/-- Witness for C4 at a concrete input: round-tripping `/Documents/a.txt`. -/
theorem C4_trash_round_trip_witness :
    objGet (restoreFromTrash (moveToTrash sampleFiles docAItem 55) "/Documents/a.txt").items
        "/Documents/a.txt" =
      some { docAItem with status := .active, originalPath := none, deletedAt := none } :=
  C4_trash_round_trip sampleFiles "/Documents/a.txt" docAItem 55
    (by decide) (by decide) (by decide) (by decide) (by decide) (by decide) (by decide)

/-! ## C8: alias-resolution chains -/

/-- `AliasChain items f ps final`: starting from `currentFile = f`, the
store metadata describes a finite chain of *file* aliases whose alias-node
paths are `ps` (pairwise fresh, so the loop's `visitedPaths` check never
fires) and whose last node `final` is not an alias (or is absent from the
map).  This is the source-level notion of "alias chain of length
`ps.length`" traversed by `handleFileOpen`. -/
inductive AliasChain (items : List (String × FileSystemItem)) :
    FileSystemItem → List String → FileSystemItem → Prop where
  | terminal (f : FileSystemItem)
      (hterm : ∀ g, objGet items f.path = some g →
        (g.aliasKind.isSome && truthyStr g.aliasTarget) = false) :
      AliasChain items f [] f
  | step (f g nxt final : FileSystemItem) (ps : List String)
      (hf : objGet items f.path = some g)
      (halias : (g.aliasKind.isSome && truthyStr g.aliasTarget) = true)
      (hkind : (g.aliasKind == some AliasKind.app) = false)
      (hnx : objGet items (g.aliasTarget.getD "") = some nxt)
      (hchain : AliasChain items nxt ps final)
      (hnew : f.path ∉ ps) :
      AliasChain items f (f.path :: ps) final

/-- A chain of `n` alias hops resolves to its terminal file whenever the
fuel exceeds `n` and the already-visited set is disjoint from the chain;
the terminal iteration also burns one unit of fuel (the source's `depth++`
runs before the alias test), so `n + 1` units are consumed in total. -/
lemma aliasChain_resolve (items : List (String × FileSystemItem))
    (f final : FileSystemItem) (ps : List String)
    (h : AliasChain items f ps final) :
    ∀ (fuel : Nat) (visited : List String), ps.length < fuel →
      (∀ p ∈ ps, p ∉ visited) →
      resolveAliasLoop items fuel visited f =
        (.resolvedFile final, fuel - (ps.length + 1)) := by
  induction h with
  | terminal f hterm =>
    intro fuel visited hfuel _
    match fuel, hfuel with
    | fuel + 1, _ =>
      have hsub : fuel + 1 - (([] : List String).length + 1) = fuel := by simp
      rw [hsub]
      unfold resolveAliasLoop
      cases hg : objGet items f.path with
      | none => rfl
      | some g =>
        dsimp only
        rw [hterm g hg]
        simp
  | step f g nxt final ps hf halias hkind hnx hchain hnew ih =>
    intro fuel visited hfuel hdisj
    match fuel, hfuel with
    | fuel + 1, hfuel =>
      have hsub : fuel + 1 - ((f.path :: ps).length + 1) = fuel - (ps.length + 1) := by
        simp [Nat.succ_sub_succ]
      rw [hsub]
      unfold resolveAliasLoop
      rw [hf]
      dsimp only
      rw [halias]
      simp only [if_true]
      have hfv : f.path ∉ visited := hdisj f.path (List.mem_cons_self _ _)
      have hcv : visited.contains f.path = false := by
        simp [hfv]
      rw [hcv]
      simp only [Bool.false_eq_true, if_false]
      rw [hkind]
      simp only [Bool.false_eq_true, if_false]
      rw [hnx]
      dsimp only
      apply ih
      · exact Nat.lt_of_succ_lt_succ hfuel
      · intro p hp
        rw [List.mem_cons]
        push_neg
        constructor
        · intro hpe
          exact hnew (hpe ▸ hp)
        · exact hdisj p (List.mem_cons_of_mem _ hp)

/-- An infinite walk of file aliases (each node's metadata is an alias whose
target exists — in a finite store this is exactly a chain that enters a
cycle) is always rejected: for every fuel and visited set the loop ends in
`cycleDetected` or `depthExceeded`, never resolving and never looping
forever. -/
lemma aliasWalk_rejected (items : List (String × FileSystemItem))
    (walk mdata : Nat → FileSystemItem)
    (hmeta : ∀ j, objGet items (walk j).path = some (mdata j))
    (halias : ∀ j, ((mdata j).aliasKind.isSome && truthyStr (mdata j).aliasTarget) = true)
    (hkind : ∀ j, ((mdata j).aliasKind == some AliasKind.app) = false)
    (hnx : ∀ j, objGet items ((mdata j).aliasTarget.getD "") = some (walk (j + 1))) :
    ∀ (fuel : Nat) (visited : List String) (j : Nat),
      (∃ p, (resolveAliasLoop items fuel visited (walk j)).1 = .cycleDetected p) ∨
      (resolveAliasLoop items fuel visited (walk j)).1 = .depthExceeded := by
  intro fuel
  induction fuel with
  | zero => intro visited j; right; rfl
  | succ n ih =>
    intro visited j
    unfold resolveAliasLoop
    rw [hmeta j]
    dsimp only
    rw [halias j]
    simp only [if_true]
    by_cases hv : visited.contains (walk j).path = true
    · left
      exact ⟨(walk j).path, by rw [hv]; simp⟩
    · rw [Bool.not_eq_true] at hv
      rw [hv]
      simp only [Bool.false_eq_true, if_false]
      rw [hkind j]
      simp only [Bool.false_eq_true, if_false]
      rw [hnx j]
      dsimp only
      exact ih ((walk j).path :: visited) (j + 1)

/-- A self-alias: `/Desktop/loop` whose target is itself. -/
def selfAliasItem : FileSystemItem :=
  { path := "/Desktop/loop", name := "loop", isDirectory := false,
    status := .active, type := some "alias",
    aliasTarget := some "/Desktop/loop", aliasKind := some .file }

def selfAliasFiles : FilesState :=
  { items := [("/Desktop/loop", selfAliasItem)], libraryState := "loaded" }

/-- A one-hop alias on the desktop pointing at `/Documents/a.txt`. -/
def aliasDeskItem : FileSystemItem :=
  { path := "/Desktop/a-alias", name := "a-alias", isDirectory := false,
    status := .active, type := some "alias",
    aliasTarget := some "/Documents/a.txt", aliasKind := some .file }

def chainFiles : FilesState :=
  { items := [("/Desktop", desktopDirItem), ("/Documents", documentsDirItem),
      ("/Documents/a.txt", docAItem), ("/Desktop/a-alias", aliasDeskItem)]
    libraryState := "loaded" }

/-- **C8** (confirmed): alias resolution in `handleFileOpen` is finite and
read-only (the loop only reads the store — by construction it returns an
outcome without touching state). (i) A chain of `n` file-alias hops resolves
to its terminal file in `n + 1` loop iterations (`depth++` also runs on the
terminal iteration) whenever `n < fuel` and the visited set is disjoint from
the chain; (ii) with the source's `maxDepth = 10` and its post-loop
`depth >= maxDepth` rejection, `handleFileOpen` resolves exactly the chains
of length ≤ 8, and a 9-hop chain — though resolved inside the loop — is
discarded with the max-depth warning; (iii) an endless alias walk — which is
what a chain containing a cycle looks like to the loop — is always rejected
as `cycleDetected` or `depthExceeded`, never spinning forever; (iv)
concretely, a self-alias is detected as a cycle at its own path. -/
theorem C8_alias_resolution_finite :
    (∀ (items : List (String × FileSystemItem)) (f final : FileSystemItem)
        (ps : List String) (fuel : Nat) (visited : List String),
      AliasChain items f ps final → ps.length < fuel →
      (∀ p ∈ ps, p ∉ visited) →
      resolveAliasLoop items fuel visited f =
        (.resolvedFile final, fuel - (ps.length + 1))) ∧
    (∀ (items : List (String × FileSystemItem)) (f final : FileSystemItem)
        (ps : List String),
      AliasChain items f ps final → ps.length ≤ 8 →
      handleFileOpenResolve items f = .resolvedFile final) ∧
    (∀ (items : List (String × FileSystemItem)) (f final : FileSystemItem)
        (ps : List String),
      AliasChain items f ps final → ps.length = 9 →
      handleFileOpenResolve items f = .depthExceeded) ∧
    (∀ (items : List (String × FileSystemItem)) (walk mdata : Nat → FileSystemItem),
      (∀ j, objGet items (walk j).path = some (mdata j)) →
      (∀ j, ((mdata j).aliasKind.isSome && truthyStr (mdata j).aliasTarget) = true) →
      (∀ j, ((mdata j).aliasKind == some AliasKind.app) = false) →
      (∀ j, objGet items ((mdata j).aliasTarget.getD "") = some (walk (j + 1))) →
      ∀ (fuel : Nat) (visited : List String) (j : Nat),
        (∃ p, (resolveAliasLoop items fuel visited (walk j)).1 = .cycleDetected p) ∨
        (resolveAliasLoop items fuel visited (walk j)).1 = .depthExceeded) ∧
    handleFileOpenResolve selfAliasFiles.items selfAliasItem =
      .cycleDetected "/Desktop/loop" := by
  refine ⟨?_, ?_, ?_, ?_, rfl⟩
  · intro items f final ps fuel visited h hfuel hdisj
    exact aliasChain_resolve items f final ps h fuel visited hfuel hdisj
  · intro items f final ps h hle
    unfold handleFileOpenResolve
    rw [aliasChain_resolve items f final ps h 10 [] (by omega)
      (fun p _ hc => List.not_mem_nil p hc)]
    dsimp only
    rw [if_neg (by omega)]
  · intro items f final ps h hlen
    unfold handleFileOpenResolve
    rw [aliasChain_resolve items f final ps h 10 [] (by omega)
      (fun p _ hc => List.not_mem_nil p hc)]
    dsimp only
    rw [if_pos (by omega)]
  · intro items walk mdata hmeta halias hkind hnx
    exact aliasWalk_rejected items walk mdata hmeta halias hkind hnx

/-- Witness for C8 at a concrete input: the one-hop chain
`/Desktop/a-alias → /Documents/a.txt` resolves to the target file. -/
theorem C8_alias_resolution_finite_witness :
    handleFileOpenResolve chainFiles.items aliasDeskItem = .resolvedFile docAItem := by
  have hterm : ∀ gm, objGet chainFiles.items docAItem.path = some gm →
      (gm.aliasKind.isSome && truthyStr gm.aliasTarget) = false := by
    intro gm hgm
    have h2 : (some docAItem : Option FileSystemItem) = some gm := by
      rw [← hgm]
      rfl
    cases h2
    rfl
  have hchain : AliasChain chainFiles.items aliasDeskItem ["/Desktop/a-alias"] docAItem :=
    AliasChain.step aliasDeskItem aliasDeskItem docAItem docAItem []
      (by decide) (by decide) (by decide) (by decide)
      (AliasChain.terminal docAItem hterm) (List.not_mem_nil _)
  exact C8_alias_resolution_finite.2.1 chainFiles.items aliasDeskItem docAItem
    ["/Desktop/a-alias"] hchain (by decide)



end Desktop
